import Mathlib

/-!
Verification of the IoTflow Kernel storage subsystem:
the M24C08 EEPROM driver (`EEPROM_driver.py`) and the binary
configuration codec (`config_serializer.py`).

The Python source is shallowly embedded:

* byte buffers are `List Nat` (each entry a byte value);
* machine integers are `Nat`/`Int` with explicit `% 2 ^ w` where the
  MicroPython `struct` module truncates (MicroPython's `struct.pack`
  silently masks integers that do not fit the format, unlike CPython
  which raises `struct.error`);
* fallible code returns `Option`/`Except`;
* the I2C bus is modelled by a trace of bus events plus an abstract
  device-busy schedule for ACK polling.
-/

namespace IoTflow

/-! ## EEPROM driver model (`EEPROM_driver.py`) -/

/-- `EEPROM.MEMORY_SIZE` (line 36). -/
def MEMORY_SIZE : Nat := 1024

/-- `EEPROM.PAGE_SIZE` (line 37). -/
def PAGE_SIZE : Nat := 16

/-- `EEPROM._get_device_address` (lines 57-69):
`a9_a8 = (memory_address >> 8) & 0x03;
device_addr = 0x57 | (self.e2_bit << 2) | a9_a8`.
`self.e2_bit` is stored as `e2_bit & 1` in `__init__` (line 51); here
`e2` stands for the raw constructor argument. -/
def getDeviceAddress (e2 : Nat) (memoryAddress : Nat) : Nat :=
  0x57 ||| (((e2 &&& 1)) <<< 2) ||| ((memoryAddress >>> 8) &&& 0x03)

/-- `EEPROM._validate_address` (lines 101-106), returning `false` where the
Python raises `ValueError` (the spec's `RangeError`).  Addresses are `Int`
because the source explicitly guards `address < 0`. -/
def validateAddress (address : Int) (length : Nat) : Bool :=
  !(address < 0 || address ≥ (MEMORY_SIZE : Int)
    || address + (length : Int) > (MEMORY_SIZE : Int))

/-- Errors raised by the driver: `ValueError` for out-of-range addresses
(the spec's `RangeError`) and `RuntimeError("Write cycle timeout")`
(the spec's `WriteTimeoutError`). -/
inductive DrvError where
  | range
  | timeout
  deriving DecidableEq, Repr

/-- One I2C bus interaction, as issued by the driver:
`tx dev payload` is `i2c.writeto(dev, payload)` carrying data,
`probeNak dev` is a zero-length `writeto` that the busy device does not
acknowledge, and `probeAck dev` is a zero-length `writeto` that is
acknowledged. -/
inductive Ev where
  | tx (dev : Nat) (payload : List Nat)
  | probeNak (dev : Nat)
  | probeAck (dev : Nat)
  deriving DecidableEq, Repr

/-- The loop of `EEPROM.read_bytes` (lines 150-164): each chunk is
`(current_addr, bytes_to_read)` with
`bytes_to_read = min(remaining, 256 - (current_addr & 0xFF))`.
The loop is indexed by a structural fuel so that it evaluates in the
kernel; every iteration reads at least one byte, so `fuel = remaining`
suffices (see `readChunks`). -/
def readChunksGo : Nat → Nat → Nat → List (Nat × Nat)
  | 0, _, _ => []
  | _ + 1, _, 0 => []
  | fuel + 1, address, remaining + 1 =>
    (address, min (remaining + 1) (256 - address % 256)) ::
      readChunksGo fuel (address + min (remaining + 1) (256 - address % 256))
        (remaining + 1 - min (remaining + 1) (256 - address % 256))

/-- The chunk list produced by the loop of `EEPROM.read_bytes`
(lines 150-164). -/
def readChunks (address remaining : Nat) : List (Nat × Nat) :=
  readChunksGo remaining address remaining

/-- `EEPROM.read_bytes` (lines 129-166) over an abstract memory
`mem : Nat → Nat`: validates the range, then reads chunk by chunk and
concatenates.  Each chunk's data is the slice of `mem` it covers. -/
def readBytes (mem : Nat → Nat) (address : Int) (length : Nat) :
    Except DrvError (List Nat) :=
  if validateAddress address length then
    .ok ((readChunks address.toNat length).flatMap
      (fun c => (List.range c.2).map (fun i => mem (c.1 + i))))
  else
    .error .range

/-- The loop of `EEPROM.write_bytes` (lines 206-228):
`page_start = (current_addr // 16) * 16`,
`bytes_left_in_page = 16 - (current_addr - page_start)`,
`chunk_size = min(bytes_left_in_page, len(data) - offset)`.
Fuel-indexed for kernel evaluation; every iteration consumes at least
one byte, so `fuel = data.length` suffices (see `writeChunks`). -/
def writeChunksGo : Nat → Nat → List Nat → List (Nat × List Nat)
  | 0, _, _ => []
  | _ + 1, _, [] => []
  | fuel + 1, address, x :: xs =>
    (address,
      (x :: xs).take (min (PAGE_SIZE - address % PAGE_SIZE) (x :: xs).length)) ::
      writeChunksGo fuel
        (address + min (PAGE_SIZE - address % PAGE_SIZE) (x :: xs).length)
        ((x :: xs).drop (min (PAGE_SIZE - address % PAGE_SIZE) (x :: xs).length))

/-- The chunk list produced by the loop of `EEPROM.write_bytes`
(lines 206-228). -/
def writeChunks (address : Nat) (data : List Nat) : List (Nat × List Nat) :=
  writeChunksGo data.length address data

/-- `EEPROM._wait_write_complete` (lines 80-99), with real time abstracted
to a poll budget: the device needs `busy` failed probes before it
acknowledges, and the loop gives up (raising the write-cycle timeout)
after `budget` unacknowledged probes.  On success the emitted trace is
`busy` NAK probes followed by one ACK probe of the device's current
address. -/
def waitWriteComplete (dev busy budget : Nat) : Except DrvError (List Ev) :=
  if busy < budget then
    .ok (List.replicate busy (.probeNak dev) ++ [.probeAck dev])
  else
    .error .timeout

/-- The loop body of `EEPROM.write_bytes` (lines 206-228) over the chunk
list: for each chunk, one `writeto` of the address byte plus payload,
then ACK polling.  `sched k` is the busy count of the device for the
`k`-th chunk, `budget` the poll budget, `idx` the index of the first
chunk. -/
def writeLoop (e2 : Nat) (sched : Nat → Nat) (budget : Nat) :
    Nat → List (Nat × List Nat) → Except DrvError (List Ev)
  | _, [] => .ok []
  | idx, (addr, chunk) :: rest => do
    let dev := getDeviceAddress e2 addr
    let polls ← waitWriteComplete dev (sched idx) budget
    let tail ← writeLoop e2 sched budget (idx + 1) rest
    .ok (Ev.tx dev (addr % 256 :: chunk) :: polls ++ tail)

/-- `EEPROM.write_bytes` (lines 190-228): validates the range, then writes
page-aligned chunks, ACK-polling after each transmission.  Returns the
bus trace on success. -/
def writeBytes (e2 : Nat) (address : Int) (data : List Nat)
    (sched : Nat → Nat) (budget : Nat) : Except DrvError (List Ev) :=
  if validateAddress address data.length then
    writeLoop e2 sched budget 0 (writeChunks address.toNat data)
  else
    .error .range

/-- Checker for the write-chunk list: starting from `start`, every chunk
is non-empty, begins exactly where the previous one ended, and lies
inside a single absolute 16-byte page (`a % 16 + len ≤ 16`). -/
def chunksOk (start : Nat) : List (Nat × List Nat) → Bool
  | [] => true
  | (a, c) :: rest =>
    (a == start) && (!c.isEmpty) && (a % PAGE_SIZE + c.length ≤ PAGE_SIZE) &&
      chunksOk (a + c.length) rest

/-- Checker for the read-chunk list: starting from `start`, every chunk
is non-empty, begins where the previous one ended, and lies inside a
single 256-byte addressing block (`a % 256 + len ≤ 256`). -/
def readChunksOk (start : Nat) : List (Nat × Nat) → Bool
  | [] => true
  | (a, n) :: rest =>
    (a == start) && (n != 0) && (a % 256 + n ≤ 256) && readChunksOk (a + n) rest

/-- Scanner over a bus trace: a data transmission may only be issued when
the previous transmission (if any) has already been followed by an
acknowledged probe.  `canTx` is `true` initially and again after each
`probeAck`. -/
def txOkGo : Bool → List Ev → Bool
  | _, [] => true
  | canTx, .tx _ _ :: rest => canTx && txOkGo false rest
  | canTx, .probeNak _ :: rest => txOkGo canTx rest
  | _, .probeAck _ :: rest => txOkGo true rest

/-- No transmission in the trace is issued before the previous
transmission's write cycle has been acknowledged. -/
def noTxBeforeAck (tr : List Ev) : Bool := txOkGo true tr

/-- The payloads of the data transmissions of a trace, in order. -/
def txPayloads : List Ev → List (List Nat)
  | [] => []
  | .tx _ p :: rest => p :: txPayloads rest
  | _ :: rest => txPayloads rest

/-- The number of acknowledged probes in a trace. -/
def ackCount : List Ev → Nat
  | [] => 0
  | .probeAck _ :: rest => ackCount rest + 1
  | _ :: rest => ackCount rest

/-- The trace `write_bytes` produces when every chunk's write cycle
completes within the poll budget: per chunk, one transmission, the
device's NAK probes, one ACK probe. -/
def expectedTrace (e2 : Nat) (sched : Nat → Nat) :
    Nat → List (Nat × List Nat) → List Ev
  | _, [] => []
  | idx, (a, c) :: rest =>
    Ev.tx (getDeviceAddress e2 a) (a % 256 :: c) ::
      (List.replicate (sched idx) (Ev.probeNak (getDeviceAddress e2 a)) ++
        Ev.probeAck (getDeviceAddress e2 a) ::
          expectedTrace e2 sched (idx + 1) rest)

/-! ## Configuration codec model (`config_serializer.py`)

Text fields are modelled by their UTF-8 byte sequences (`List Nat`);
the codec only length-prefixes and copies these bytes, and Python's
UTF-8 encode/decode pair is injective, so the byte level is the faithful
level of abstraction.  Numeric-string fields (`channel_type`,
hex-string addresses, binary-string bitmasks) are kept as `String` and
converted with models of Python's `int(s)` / `int(s, 16)` / `int(s, 2)`
/ `str` / `hex` / `format` as the source does.  The 32-bit float
`adc_hardware_gain` is modelled by its IEEE-754 big-endian bit pattern
(a `Nat < 2^32`): `struct.pack(">f")`/`unpack(">f")` is the identity on
bit patterns, which is all the codec does with the value.
MicroPython's `struct.pack` silently masks integers that do not fit the
format (`"B"` keeps the low 8 bits, `">H"` the low 16), which is
modelled by explicit `% 256` / `% 65536`. -/

/-- Model of Python `int(s)` on the plain-decimal-digit strings the
configuration uses (no sign, whitespace or underscores). -/
def decGo : Nat → List Char → Option Nat
  | acc, [] => some acc
  | acc, c :: cs =>
    if '0' ≤ c ∧ c ≤ '9' then decGo (acc * 10 + (c.toNat - 48)) cs else none

/-- Python `int(s)` (decimal fragment). -/
def pyIntDec (s : String) : Option Nat :=
  if s.data.isEmpty then none else decGo 0 s.data

/-- Value of one hexadecimal digit. -/
def hexDigit? (c : Char) : Option Nat :=
  if '0' ≤ c ∧ c ≤ '9' then some (c.toNat - 48)
  else if 'a' ≤ c ∧ c ≤ 'f' then some (c.toNat - 87)
  else if 'A' ≤ c ∧ c ≤ 'F' then some (c.toNat - 55)
  else none

def hexGo : Nat → List Char → Option Nat
  | acc, [] => some acc
  | acc, c :: cs =>
    match hexDigit? c with
    | some d => hexGo (acc * 16 + d) cs
    | none => none

/-- Model of Python `int(s, 16)`: an optional `0x`/`0X` prefix followed
by hexadecimal digits of either case. -/
def pyIntHex (s : String) : Option Nat :=
  let cs := match s.data with
    | '0' :: 'x' :: rest => rest
    | '0' :: 'X' :: rest => rest
    | cs => cs
  if cs.isEmpty then none else hexGo 0 cs

def binGo : Nat → List Char → Option Nat
  | acc, [] => some acc
  | acc, c :: cs =>
    if c = '0' then binGo (acc * 2) cs
    else if c = '1' then binGo (acc * 2 + 1) cs
    else none

/-- Model of Python `int(s, 2)`: an optional `0b`/`0B` prefix followed
by binary digits. -/
def pyIntBin (s : String) : Option Nat :=
  let cs := match s.data with
    | '0' :: 'b' :: rest => rest
    | '0' :: 'B' :: rest => rest
    | cs => cs
  if cs.isEmpty then none else binGo 0 cs

/-- Model of Python `hex(n)` for `n ≥ 0`: `0x` followed by lowercase
hexadecimal digits with no leading zeros. -/
def pyHex (n : Nat) : String :=
  "0x" ++ String.mk (Nat.toDigits 16 n)

/-- Model of Python `"0b" + "{:08b}".format(n)` for `n < 256`: `0b`
followed by exactly eight binary digits, most significant first. -/
def pyBin8 (n : Nat) : String :=
  "0b" ++ String.mk ((List.range 8).map
    (fun i => if n / 2 ^ (7 - i) % 2 = 1 then '1' else '0'))

/-- Python `int()` applied to a rational: truncation toward zero. -/
def truncTowardZero (q : ℚ) : Int :=
  if 0 ≤ q then ⌊q⌋ else ⌈q⌉

/-- The fixed-point encoder of `pack_config` (lines 71-78):
`int(value * 1000)` masked to the unsigned 16-bit `">H"` field. -/
def fixEncode (q : ℚ) : Nat :=
  ((truncTowardZero (q * 1000)) % 65536).toNat

/-- The fixed-point decoder of `unpack_config` (lines 162-169):
the stored 16-bit integer divided by `1000.0`. -/
def fixDecode (n : Nat) : ℚ := (n : ℚ) / 1000

/-- Big-endian bytes of `struct.pack(">H", n)` (MicroPython masks to 16
bits). -/
def u16be (n : Nat) : List Nat := [n / 256 % 256, n % 256]

/-- Big-endian bytes of a 32-bit value (the `">f"` field, modelled at
the bit-pattern level). -/
def u32be (n : Nat) : List Nat :=
  [n / 2 ^ 24 % 256, n / 2 ^ 16 % 256, n / 256 % 256, n % 256]

/-- `pack_string` (lines 21-25): one length byte followed by the bytes;
fails (`ValueError`, the spec's `EncodingError`) above 255 bytes. -/
def pack_string (s : List Nat) : Option (List Nat) :=
  if s.length > 255 then none else some (s.length :: s)

/-- `unpack_string` (lines 28-31): reads the length byte (`buf[offset]`
raises on an empty remainder), then *slices* that many bytes — Python
slicing clamps to the end of the buffer, so a short remainder is
silently truncated and the offset still advances past the end. -/
def unpack_string : List Nat → Option (List Nat × List Nat)
  | [] => none
  | n :: rest => some (rest.take n, rest.drop n)

/-- The bounds-checking variant of `unpack_string`: succeeds only when
the declared `n` bytes are actually present.  Used to state that the
real parser never silently accepts a short field. -/
def unpack_string_strict : List Nat → Option (List Nat × List Nat)
  | [] => none
  | n :: rest =>
    if n ≤ rest.length then some (rest.take n, rest.drop n) else none

/-- One channel of the configuration record (§ per-channel layout of
`pack_config`/`unpack_config`). -/
structure Channel where
  name : List Nat
  channel_type : String
  interface_type : String
  channel_number : Nat
  actions : Nat
  measurement_range : Option String
  /-- IEEE-754 single-precision bit pattern of the 32-bit float. -/
  adc_hardware_gain : Option Nat
  shunt_resistance : Option ℚ
  adc_offset : Option ℚ
  deriving DecidableEq, Repr

structure Network where
  wifi_ssid : List Nat
  wifi_password : List Nat
  deriving DecidableEq, Repr

structure Mqtt where
  broker : List Nat
  port : Nat
  client_id : List Nat
  base_topic : List Nat
  deriving DecidableEq, Repr

/-- The hardware section.  `gpio_host_pins` models the dict with keys
`"1"`..`"8"` as the list of its values in key order.  `num_of_adcs` is
`none` when the key is absent from the dict (as in every record built
for `pack_config`, which never reads or writes it) and `some n` when
present (as in every record returned by `unpack_config`). -/
structure Hardware where
  mode : List Nat
  i2c_bus_id : Nat
  i2c_sda_pin : Nat
  i2c_scl_pin : Nat
  i2c_device_addr : String
  eeprom_i2c_addr : String
  eeprom_size : Nat
  gpio_host_pins : List Nat
  adc_i2c_addrs : List String
  num_of_adcs : Option Nat
  adc_sampling_rate : Nat
  deriving DecidableEq, Repr

structure Config where
  module_type : List Nat
  mezzanine_type : List Nat
  channels : List Channel
  network : Network
  mqtt : Mqtt
  hardware : Hardware
  pin_config : String
  status_update_interval_s : Nat
  deriving DecidableEq, Repr

/-- The per-channel presence byte of `pack_config` (lines 58-63):
bit 0 `measurement_range`, bit 1 `adc_hardware_gain`,
bit 2 `shunt_resistance`, bit 3 `adc_offset`. -/
def presenceByte (ch : Channel) : Nat :=
  (if ch.measurement_range.isSome then 1 else 0) +
  (if ch.adc_hardware_gain.isSome then 2 else 0) +
  (if ch.shunt_resistance.isSome then 4 else 0) +
  (if ch.adc_offset.isSome then 8 else 0)

/-- The per-channel fragment of `pack_config` (lines 47-78). -/
def packChannel (ch : Channel) : Option (List Nat) := do
  let name ← pack_string ch.name
  let t ← pyIntDec ch.channel_type
  let it ← pyIntDec ch.interface_type
  let mr ← match ch.measurement_range with
    | none => some []
    | some s => do
      let v ← pyIntBin s
      some [v % 256]
  let gain := match ch.adc_hardware_gain with
    | none => []
    | some g => u32be g
  let shunt := match ch.shunt_resistance with
    | none => []
    | some q => u16be (fixEncode q)
  let off := match ch.adc_offset with
    | none => []
    | some q => u16be (fixEncode q)
  some (name ++
    [t % 256, it % 256, ch.channel_number % 256, ch.actions % 256,
      presenceByte ch] ++ mr ++ gain ++ shunt ++ off)

def packChannels : List Channel → Option (List Nat)
  | [] => some []
  | ch :: rest => do
    let c ← packChannel ch
    let r ← packChannels rest
    some (c ++ r)

/-- The GPIO packing loop of `pack_config` (lines 108-110): two 4-bit
pin values per byte, key `str(i+1)` in the high nibble
(`(p & 0x0F) << 4` is `p % 16 * 16`). -/
def packGpio (g : List Nat) : List Nat :=
  (List.range 4).map
    (fun i => g.getD (2 * i) 0 % 16 * 16 + g.getD (2 * i + 1) 0 % 16)

/-- The ADC-address loop of `pack_config` (lines 113-116). -/
def packAdcAddrs : List String → Option (List Nat)
  | [] => some []
  | s :: rest => do
    let v ← pyIntHex s
    let r ← packAdcAddrs rest
    some (v % 256 :: r)

/-- The network fragment of `pack_config` (lines 81-82). -/
def packNetworkSec (n : Network) : Option (List Nat) := do
  let ssid ← pack_string n.wifi_ssid
  let pwd ← pack_string n.wifi_password
  some (ssid ++ pwd)

/-- The MQTT fragment of `pack_config` (lines 85-89). -/
def packMqttSec (m : Mqtt) : Option (List Nat) := do
  let broker ← pack_string m.broker
  let cid ← pack_string m.client_id
  let bt ← pack_string m.base_topic
  some (broker ++ u16be m.port ++ cid ++ bt)

/-- The hardware fragment of `pack_config` (lines 92-119).
`num_of_adcs` is never read. -/
def packHardwareSec (hw : Hardware) : Option (List Nat) := do
  let mode ← pack_string hw.mode
  let dev ← pyIntHex hw.i2c_device_addr
  let eep ← pyIntHex hw.eeprom_i2c_addr
  let adcs ← packAdcAddrs hw.adc_i2c_addrs
  some (mode ++
    [hw.i2c_bus_id % 256, hw.i2c_sda_pin % 256, hw.i2c_scl_pin % 256,
      dev % 256, eep % 256] ++
    u16be hw.eeprom_size ++
    packGpio hw.gpio_host_pins ++
    [hw.adc_i2c_addrs.length % 256] ++ adcs ++
    u16be hw.adc_sampling_rate)

/-- `pack_config` (lines 37-124). -/
def packConfig (cfg : Config) : Option (List Nat) := do
  let mt ← pack_string cfg.module_type
  let mz ← pack_string cfg.mezzanine_type
  let chs ← packChannels cfg.channels
  let net ← packNetworkSec cfg.network
  let mq ← packMqttSec cfg.mqtt
  let hw ← packHardwareSec cfg.hardware
  let pinc ← pyIntBin cfg.pin_config
  some (mt ++ mz ++ [cfg.channels.length % 256] ++ chs ++ net ++ mq ++ hw ++
    [pinc % 256, min cfg.status_update_interval_s 255])

/-! Parsers for `unpack_config`, consuming the remaining byte list
(the source's `(buf, offset)` pair is represented by `buf.drop offset`;
an index read `buf[offset]` succeeds exactly when the remainder is
non-empty, and `struct.unpack_from` requires its full field width).
`unpackConfigAux` is parameterized by the string parser so that the
faithful parser (`unpack_string`) and its bounds-checking variant share
the rest of the code. -/

abbrev StrParser := List Nat → Option (List Nat × List Nat)

/-- `buf[offset]` (one byte). -/
def readByte : List Nat → Option (Nat × List Nat)
  | [] => none
  | b :: rest => some (b, rest)

/-- `struct.unpack_from(">H", ...)` (lines 180, 195, 212). -/
def readU16 : List Nat → Option (Nat × List Nat)
  | b0 :: b1 :: rest => some (b0 * 256 + b1, rest)
  | _ => none

/-- `struct.unpack_from(">f", ...)` (line 159), at the bit level. -/
def readU32 : List Nat → Option (Nat × List Nat)
  | b0 :: b1 :: b2 :: b3 :: rest =>
    some (((b0 * 256 + b1) * 256 + b2) * 256 + b3, rest)
  | _ => none

/-- `struct.unpack_from("BBBB", ...)` (line 143). -/
def read4 : List Nat → Option ((Nat × Nat × Nat × Nat) × List Nat)
  | a :: b :: c :: d :: rest => some ((a, b, c, d), rest)
  | _ => none

/-- `struct.unpack_from("BBBBB", ...)` (line 192). -/
def read5 : List Nat → Option ((Nat × Nat × Nat × Nat × Nat) × List Nat)
  | a :: b :: c :: d :: e :: rest => some ((a, b, c, d, e), rest)
  | _ => none

/-- `struct.unpack_from("BB", ...)` (line 229). -/
def read2 : List Nat → Option ((Nat × Nat) × List Nat)
  | a :: b :: rest => some ((a, b), rest)
  | _ => none

/-- The per-channel fragment of `unpack_config` (lines 141-171). -/
def parseChannel (str : StrParser) (bs : List Nat) :
    Option (Channel × List Nat) := do
  let (name, bs) ← str bs
  let ((chType, ifType, chNum, acts), bs) ← read4 bs
  let (p, bs) ← readByte bs
  let (mr, bs) ←
    if p % 2 = 1 then do
      let (v, bs) ← readByte bs
      some (some (pyBin8 v), bs)
    else some ((none : Option String), bs)
  let (gain, bs) ←
    if p / 2 % 2 = 1 then do
      let (g, bs) ← readU32 bs
      some (some g, bs)
    else some ((none : Option Nat), bs)
  let (shunt, bs) ←
    if p / 4 % 2 = 1 then do
      let (v, bs) ← readU16 bs
      some (some (fixDecode v), bs)
    else some ((none : Option ℚ), bs)
  let (off, bs) ←
    if p / 8 % 2 = 1 then do
      let (v, bs) ← readU16 bs
      some (some (fixDecode v), bs)
    else some ((none : Option ℚ), bs)
  some ({ name := name, channel_type := Nat.repr chType,
          interface_type := Nat.repr ifType, channel_number := chNum,
          actions := acts, measurement_range := mr,
          adc_hardware_gain := gain, shunt_resistance := shunt,
          adc_offset := off }, bs)

def parseChannels (str : StrParser) : Nat → List Nat →
    Option (List Channel × List Nat)
  | 0, bs => some ([], bs)
  | n + 1, bs => do
    let (c, bs) ← parseChannel str bs
    let (cs, bs) ← parseChannels str n bs
    some (c :: cs, bs)

/-- The GPIO unpacking loop of `unpack_config` (lines 198-202):
`(packed >> 4) & 0x0F` is `b / 16 % 16` and `packed & 0x0F` is
`b % 16`. -/
def parseGpio : List Nat → Option (List Nat × List Nat)
  | b0 :: b1 :: b2 :: b3 :: rest =>
    some ([b0 / 16 % 16, b0 % 16, b1 / 16 % 16, b1 % 16,
           b2 / 16 % 16, b2 % 16, b3 / 16 % 16, b3 % 16], rest)
  | _ => none

/-- The ADC-address loop of `unpack_config` (lines 205-209). -/
def parseAdcAddrs : Nat → List Nat → Option (List String × List Nat)
  | 0, bs => some ([], bs)
  | n + 1, bs => do
    let (b, bs) ← readByte bs
    let (r, bs) ← parseAdcAddrs n bs
    some (pyHex b :: r, bs)

/-- The network section of `unpack_config` (lines 174-176). -/
def parseNetworkSec (str : StrParser) (bs : List Nat) :
    Option (Network × List Nat) := do
  let (ssid, bs) ← str bs
  let (pwd, bs) ← str bs
  some ({ wifi_ssid := ssid, wifi_password := pwd }, bs)

/-- The MQTT section of `unpack_config` (lines 179-188). -/
def parseMqttSec (str : StrParser) (bs : List Nat) :
    Option (Mqtt × List Nat) := do
  let (broker, bs) ← str bs
  let (port, bs) ← readU16 bs
  let (cid, bs) ← str bs
  let (bt, bs) ← str bs
  some ({ broker := broker, port := port, client_id := cid,
          base_topic := bt }, bs)

/-- The hardware section of `unpack_config` (lines 191-226),
including the `num_of_adcs` key that only exists in decoded records. -/
def parseHardwareSec (str : StrParser) (bs : List Nat) :
    Option (Hardware × List Nat) := do
  let (mode, bs) ← str bs
  let ((busId, sda, scl, dev, eep), bs) ← read5 bs
  let (esz, bs) ← readU16 bs
  let (gpio, bs) ← parseGpio bs
  let (nadc, bs) ← readByte bs
  let (addrs, bs) ← parseAdcAddrs nadc bs
  let (srate, bs) ← readU16 bs
  some ({ mode := mode, i2c_bus_id := busId, i2c_sda_pin := sda,
          i2c_scl_pin := scl, i2c_device_addr := pyHex dev,
          eeprom_i2c_addr := pyHex eep, eeprom_size := esz,
          gpio_host_pins := gpio, adc_i2c_addrs := addrs,
          num_of_adcs := some nadc, adc_sampling_rate := srate }, bs)

/-- `unpack_config` (lines 130-233), parameterized by the string
parser. -/
def unpackConfigAux (str : StrParser) (buf : List Nat) : Option Config := do
  let (mt, bs) ← str buf
  let (mz, bs) ← str bs
  let (nch, bs) ← readByte bs
  let (chs, bs) ← parseChannels str nch bs
  let (net, bs) ← parseNetworkSec str bs
  let (mq, bs) ← parseMqttSec str bs
  let (hw, bs) ← parseHardwareSec str bs
  let ((pinc, status), _) ← read2 bs
  some { module_type := mt, mezzanine_type := mz, channels := chs,
         network := net, mqtt := mq, hardware := hw,
         pin_config := pyBin8 pinc, status_update_interval_s := status }

/-- The faithful `unpack_config`. -/
def unpackConfig : List Nat → Option Config :=
  unpackConfigAux unpack_string

/-- `unpack_config` with every string field bounds-checked against its
declared length. -/
def unpackConfigStrict : List Nat → Option Config :=
  unpackConfigAux unpack_string_strict

/-! ## Well-formed (canonical) records

`unpack_config` re-renders numeric-string fields through `str`, `hex`
and `"{:08b}".format`, so only records whose string fields already use
those canonical spellings can round-trip; likewise the byte and 16-bit
fields must fit their encodings.  These predicates collect exactly the
conditions the round-trip theorem needs. -/

/-- A decimal-string field in the canonical form `str` produces. -/
def WFdecStr (s : String) : Bool :=
  match pyIntDec s with
  | some v => v < 256 && Nat.repr v == s
  | none => false

/-- A hex-string field in the canonical form `hex` produces. -/
def WFhexStr (s : String) : Bool :=
  match pyIntHex s with
  | some v => v < 256 && (pyHex v == s)
  | none => false

/-- A binary-string field in the canonical form
`"0b" + "{:08b}".format` produces. -/
def WFbinStr (s : String) : Bool :=
  match pyIntBin s with
  | some v => v < 256 && (pyBin8 v == s)
  | none => false

/-- A fixed-point value the unsigned 16-bit `">H"` field can hold. -/
def WFfix (q : ℚ) : Prop :=
  0 ≤ q ∧ truncTowardZero (q * 1000) < 65536

instance : DecidablePred WFfix := fun q => by
  unfold WFfix; infer_instance

def WFchannel (ch : Channel) : Prop :=
  ch.name.length ≤ 255 ∧
  WFdecStr ch.channel_type = true ∧
  WFdecStr ch.interface_type = true ∧
  ch.channel_number < 256 ∧
  ch.actions < 256 ∧
  ch.measurement_range.all WFbinStr = true ∧
  ch.adc_hardware_gain.all (fun g => g < 4294967296) = true ∧
  ch.shunt_resistance.all (fun q => decide (WFfix q)) = true ∧
  ch.adc_offset.all (fun q => decide (WFfix q)) = true

instance : DecidablePred WFchannel := fun ch => by
  unfold WFchannel; infer_instance

def WFconfig (cfg : Config) : Prop :=
  cfg.module_type.length ≤ 255 ∧
  cfg.mezzanine_type.length ≤ 255 ∧
  cfg.channels.length ≤ 255 ∧
  (∀ ch ∈ cfg.channels, WFchannel ch) ∧
  cfg.network.wifi_ssid.length ≤ 255 ∧
  cfg.network.wifi_password.length ≤ 255 ∧
  cfg.mqtt.broker.length ≤ 255 ∧
  cfg.mqtt.port < 65536 ∧
  cfg.mqtt.client_id.length ≤ 255 ∧
  cfg.mqtt.base_topic.length ≤ 255 ∧
  cfg.hardware.mode.length ≤ 255 ∧
  cfg.hardware.i2c_bus_id < 256 ∧
  cfg.hardware.i2c_sda_pin < 256 ∧
  cfg.hardware.i2c_scl_pin < 256 ∧
  WFhexStr cfg.hardware.i2c_device_addr = true ∧
  WFhexStr cfg.hardware.eeprom_i2c_addr = true ∧
  cfg.hardware.eeprom_size < 65536 ∧
  cfg.hardware.gpio_host_pins.length = 8 ∧
  (∀ p ∈ cfg.hardware.gpio_host_pins, p < 16) ∧
  cfg.hardware.adc_i2c_addrs.length ≤ 255 ∧
  (∀ s ∈ cfg.hardware.adc_i2c_addrs, WFhexStr s = true) ∧
  cfg.hardware.adc_sampling_rate < 65536 ∧
  WFbinStr cfg.pin_config = true ∧
  cfg.status_update_interval_s ≤ 255

instance : DecidablePred WFconfig := fun cfg => by
  unfold WFconfig; infer_instance

/-- The image of one channel under pack-then-unpack: only the two
fixed-point fields change, each replaced by its decode-of-encode. -/
def rtChannel (ch : Channel) : Channel :=
  { ch with
    shunt_resistance := ch.shunt_resistance.map
      (fun q => fixDecode (fixEncode q)),
    adc_offset := ch.adc_offset.map (fun q => fixDecode (fixEncode q)) }

/-- The image of a record under pack-then-unpack: fixed-point channel
fields are re-quantized and the hardware section gains `num_of_adcs`. -/
def rtConfig (cfg : Config) : Config :=
  { cfg with
    channels := cfg.channels.map rtChannel,
    hardware := { cfg.hardware with
      num_of_adcs := some cfg.hardware.adc_i2c_addrs.length } }

/-- A minimal well-formed record with one analog channel whose
`shunt_resistance` is `0.9999`, used to test the fixed-point
round-trip precision. -/
def cxChannel : Channel :=
  { name := [], channel_type := "1", interface_type := "1",
    channel_number := 0, actions := 0, measurement_range := none,
    adc_hardware_gain := none, shunt_resistance := some (9999 / 10000),
    adc_offset := none }

def cxConfig : Config :=
  { module_type := [], mezzanine_type := [], channels := [cxChannel],
    network := { wifi_ssid := [], wifi_password := [] },
    mqtt := { broker := [], port := 0, client_id := [], base_topic := [] },
    hardware := { mode := [], i2c_bus_id := 0, i2c_sda_pin := 0,
                  i2c_scl_pin := 0, i2c_device_addr := "0x0",
                  eeprom_i2c_addr := "0x0", eeprom_size := 0,
                  gpio_host_pins := [0, 0, 0, 0, 0, 0, 0, 0],
                  adc_i2c_addrs := [], num_of_adcs := none,
                  adc_sampling_rate := 0 },
    pin_config := "0b00000000", status_update_interval_s := 0 }

/-- The byte stream of the counterexample record. -/
def cxBytes : List Nat := (packConfig cxConfig).getD []

/-- A channel with no analog fields, for concrete instances free of
rational arithmetic. -/
def witChannel : Channel := { cxChannel with shunt_resistance := none }

/-- A minimal record with no fixed-point fields. -/
def witConfig : Config := { cxConfig with channels := [witChannel] }

/-- Its packed byte stream. -/
def witBytes : List Nat := (packConfig witConfig).getD []

/-- Its pack-then-unpack image: identical except that the decoded
hardware section carries `num_of_adcs`. -/
def witConfigRT : Config :=
  { witConfig with hardware := { witConfig.hardware with
      num_of_adcs := some witConfig.hardware.adc_i2c_addrs.length } }

/-- The per-channel parse after the name string (`unpack_config`
lines 143-169), split out so that the string-parser dependence of
`parseChannel` is isolated in one leading bind. -/
def channelTail (name : List Nat) (bs : List Nat) :
    Option (Channel × List Nat) := do
  let ((chType, ifType, chNum, acts), bs) ← read4 bs
  let (p, bs) ← readByte bs
  let (mr, bs) ←
    if p % 2 = 1 then do
      let (v, bs) ← readByte bs
      some (some (pyBin8 v), bs)
    else some ((none : Option String), bs)
  let (gain, bs) ←
    if p / 2 % 2 = 1 then do
      let (g, bs) ← readU32 bs
      some (some g, bs)
    else some ((none : Option Nat), bs)
  let (shunt, bs) ←
    if p / 4 % 2 = 1 then do
      let (v, bs) ← readU16 bs
      some (some (fixDecode v), bs)
    else some ((none : Option ℚ), bs)
  let (off, bs) ←
    if p / 8 % 2 = 1 then do
      let (v, bs) ← readU16 bs
      some (some (fixDecode v), bs)
    else some ((none : Option ℚ), bs)
  some ({ name := name, channel_type := Nat.repr chType,
          interface_type := Nat.repr ifType, channel_number := chNum,
          actions := acts, measurement_range := mr,
          adc_hardware_gain := gain, shunt_resistance := shunt,
          adc_offset := off }, bs)

/-- The hardware-section parse after the mode string (`unpack_config`
lines 192-226). -/
def hardwareTail (mode : List Nat) (bs : List Nat) :
    Option (Hardware × List Nat) := do
  let ((busId, sda, scl, dev, eep), bs) ← read5 bs
  let (esz, bs) ← readU16 bs
  let (gpio, bs) ← parseGpio bs
  let (nadc, bs) ← readByte bs
  let (addrs, bs) ← parseAdcAddrs nadc bs
  let (srate, bs) ← readU16 bs
  some ({ mode := mode, i2c_bus_id := busId, i2c_sda_pin := sda,
          i2c_scl_pin := scl, i2c_device_addr := pyHex dev,
          eeprom_i2c_addr := pyHex eep, eeprom_size := esz,
          gpio_host_pins := gpio, adc_i2c_addrs := addrs,
          num_of_adcs := some nadc, adc_sampling_rate := srate }, bs)

/-! ## Driver lemmas -/

theorem exceptBind_ok {ε γ δ : Type} (x : γ) (k : γ → Except ε δ) :
    (Except.ok x >>= k) = k x := rfl

theorem exceptBind_error {ε γ δ : Type} (e : ε) (k : γ → Except ε δ) :
    ((Except.error e : Except ε γ) >>= k) = Except.error e := rfl

theorem validateAddress_true_iff (address : Int) (length : Nat) :
    validateAddress address length = true ↔
      0 ≤ address ∧ address < 1024 ∧ address + length ≤ 1024 := by
  simp only [validateAddress, MEMORY_SIZE, Bool.not_eq_true', Bool.or_eq_false_iff,
    decide_eq_false_iff_not, not_lt, ge_iff_le, not_le]
  omega

theorem writeChunksGo_join (fuel : Nat) :
    ∀ (address : Nat) (data : List Nat), data.length ≤ fuel →
      (writeChunksGo fuel address data).flatMap Prod.snd = data := by
  induction fuel with
  | zero =>
    intro address data h
    have : data = [] := by cases data <;> simp_all
    subst this
    simp [writeChunksGo]
  | succ n ih =>
    intro address data h
    match data with
    | [] => simp [writeChunksGo]
    | x :: xs =>
      have hm : address % PAGE_SIZE < PAGE_SIZE := Nat.mod_lt _ (by decide)
      simp only [writeChunksGo, List.flatMap_cons]
      rw [ih]
      · exact List.take_append_drop _ _
      · simp only [List.length_drop, List.length_cons] at h ⊢
        simp only [PAGE_SIZE] at hm ⊢
        omega

theorem writeChunksGo_ok (fuel : Nat) :
    ∀ (address : Nat) (data : List Nat), data.length ≤ fuel →
      chunksOk address (writeChunksGo fuel address data) = true := by
  induction fuel with
  | zero =>
    intro address data h
    have : data = [] := by cases data <;> simp_all
    subst this
    simp [writeChunksGo, chunksOk]
  | succ n ih =>
    intro address data h
    match data with
    | [] => simp [writeChunksGo, chunksOk]
    | x :: xs =>
      have hm : address % PAGE_SIZE < PAGE_SIZE := Nat.mod_lt _ (by decide)
      have hsz : min (PAGE_SIZE - address % PAGE_SIZE) (x :: xs).length
          ≤ (x :: xs).length := Nat.min_le_right _ _
      have hsz1 : 1 ≤ min (PAGE_SIZE - address % PAGE_SIZE) (x :: xs).length := by
        simp only [List.length_cons, PAGE_SIZE] at hm ⊢
        omega
      simp only [writeChunksGo, chunksOk, List.length_take, Bool.and_eq_true,
        beq_iff_eq, Bool.not_eq_true', decide_eq_true_eq]
      refine ⟨⟨⟨trivial, ?_⟩, ?_⟩, ?_⟩
      · obtain ⟨m, hm2⟩ : ∃ m,
            min (PAGE_SIZE - address % PAGE_SIZE) (x :: xs).length = m + 1 :=
          ⟨_, (Nat.succ_pred_eq_of_pos hsz1).symm⟩
        rw [hm2, List.take_succ_cons]
        rfl
      · simp only [PAGE_SIZE] at hm ⊢
        omega
      · rw [Nat.min_eq_left hsz]
        apply ih
        simp only [List.length_drop, List.length_cons] at h ⊢
        omega

theorem readChunksGo_sum (fuel : Nat) :
    ∀ (address remaining : Nat), remaining ≤ fuel →
      ((readChunksGo fuel address remaining).map Prod.snd).sum = remaining := by
  induction fuel with
  | zero =>
    intro address remaining h
    interval_cases remaining
    simp [readChunksGo]
  | succ n ih =>
    intro address remaining h
    match remaining with
    | 0 => simp [readChunksGo]
    | r + 1 =>
      have hm : address % 256 < 256 := Nat.mod_lt _ (by decide)
      simp only [readChunksGo, List.map_cons, List.sum_cons]
      rw [ih]
      · omega
      · omega

theorem readChunksGo_ok (fuel : Nat) :
    ∀ (address remaining : Nat), remaining ≤ fuel →
      readChunksOk address (readChunksGo fuel address remaining) = true := by
  induction fuel with
  | zero =>
    intro address remaining h
    interval_cases remaining
    simp [readChunksGo, readChunksOk]
  | succ n ih =>
    intro address remaining h
    match remaining with
    | 0 => simp [readChunksGo, readChunksOk]
    | r + 1 =>
      have hm : address % 256 < 256 := Nat.mod_lt _ (by decide)
      simp only [readChunksGo, readChunksOk, Bool.and_eq_true, beq_iff_eq,
        bne_iff_ne, ne_eq, decide_eq_true_eq]
      refine ⟨⟨⟨trivial, by omega⟩, by omega⟩, ?_⟩
      apply ih
      omega

theorem writeLoop_ne_range (e2 : Nat) (sched : Nat → Nat) (budget : Nat) :
    ∀ (cs : List (Nat × List Nat)) (idx : Nat),
      writeLoop e2 sched budget idx cs ≠ .error .range := by
  intro cs
  induction cs with
  | nil => intro idx h; simp [writeLoop] at h
  | cons c rest ih =>
    intro idx h
    obtain ⟨a, payload⟩ := c
    simp only [writeLoop, waitWriteComplete] at h
    by_cases hb : sched idx < budget
    · simp only [if_pos hb, exceptBind_ok] at h
      cases hrec : writeLoop e2 sched budget (idx + 1) rest with
      | ok tr => rw [hrec] at h; simp [exceptBind_ok] at h
      | error e =>
        rw [hrec] at h
        rw [exceptBind_error] at h
        cases h
        exact ih (idx + 1) hrec
    · simp [if_neg hb, exceptBind_error] at h

theorem writeLoop_instant (e2 : Nat) :
    ∀ (cs : List (Nat × List Nat)) (idx : Nat),
      writeLoop e2 (fun _ => 0) 1 idx cs =
        .ok (cs.flatMap (fun c =>
          [Ev.tx (getDeviceAddress e2 c.1) (c.1 % 256 :: c.2),
           Ev.probeAck (getDeviceAddress e2 c.1)])) := by
  intro cs
  induction cs with
  | nil => intro idx; simp [writeLoop]
  | cons c rest ih =>
    intro idx
    obtain ⟨a, payload⟩ := c
    simp [writeLoop, waitWriteComplete, ih (idx + 1), exceptBind_ok,
      List.flatMap_cons]

theorem writeLoop_ok (e2 : Nat) (sched : Nat → Nat) (budget : Nat) :
    ∀ (cs : List (Nat × List Nat)) (idx : Nat),
      (∀ i, i < cs.length → sched (idx + i) < budget) →
      writeLoop e2 sched budget idx cs = .ok (expectedTrace e2 sched idx cs) := by
  intro cs
  induction cs with
  | nil => intro idx _; simp [writeLoop, expectedTrace]
  | cons c rest ih =>
    intro idx h
    obtain ⟨a, payload⟩ := c
    have h0 : sched idx < budget := by
      have := h 0 (by simp)
      simpa using this
    have hrest : ∀ i, i < rest.length → sched (idx + 1 + i) < budget := by
      intro i hi
      have := h (i + 1) (by simp; omega)
      simpa [Nat.add_assoc, Nat.add_comm 1 i] using this
    simp [writeLoop, waitWriteComplete, if_pos h0, ih (idx + 1) hrest,
      exceptBind_ok, expectedTrace]

theorem writeLoop_timeout (e2 : Nat) (sched : Nat → Nat) (budget : Nat) :
    ∀ (cs : List (Nat × List Nat)) (idx : Nat),
      (∃ i, i < cs.length ∧ budget ≤ sched (idx + i)) →
      writeLoop e2 sched budget idx cs = .error .timeout := by
  intro cs
  induction cs with
  | nil => rintro idx ⟨i, hi, _⟩; simp at hi
  | cons c rest ih =>
    rintro idx ⟨i, hi, hb⟩
    obtain ⟨a, payload⟩ := c
    by_cases h0 : sched idx < budget
    · have hi' : ∃ j, j < rest.length ∧ budget ≤ sched (idx + 1 + j) := by
        rcases i with _ | j
        · exfalso
          simp only [Nat.add_zero] at hb
          omega
        ·
          refine ⟨j, by simpa using hi, ?_⟩
          have : idx + 1 + j = idx + (j + 1) := by omega
          rw [this]; exact hb
      simp [writeLoop, waitWriteComplete, if_pos h0, ih (idx + 1) hi',
        exceptBind_ok, exceptBind_error]
    · simp [writeLoop, waitWriteComplete, if_neg h0, exceptBind_error]

theorem txOkGo_replicate_nak (b : Bool) (n : Nat) (d : Nat) (rest : List Ev) :
    txOkGo b (List.replicate n (Ev.probeNak d) ++ rest) = txOkGo b rest := by
  induction n with
  | zero => simp
  | succ m ih => simp [List.replicate_succ, txOkGo, ih]

theorem txPayloads_replicate_nak (n : Nat) (d : Nat) (rest : List Ev) :
    txPayloads (List.replicate n (Ev.probeNak d) ++ rest) = txPayloads rest := by
  induction n with
  | zero => simp
  | succ m ih => simp [List.replicate_succ, txPayloads, ih]

theorem ackCount_replicate_nak (n : Nat) (d : Nat) (rest : List Ev) :
    ackCount (List.replicate n (Ev.probeNak d) ++ rest) = ackCount rest := by
  induction n with
  | zero => simp
  | succ m ih => simp [List.replicate_succ, ackCount, ih]

theorem expectedTrace_noTx (e2 : Nat) (sched : Nat → Nat) :
    ∀ (cs : List (Nat × List Nat)) (idx : Nat),
      txOkGo true (expectedTrace e2 sched idx cs) = true := by
  intro cs
  induction cs with
  | nil => intro idx; simp [expectedTrace, txOkGo]
  | cons c rest ih =>
    intro idx
    obtain ⟨a, payload⟩ := c
    simp only [expectedTrace, txOkGo, Bool.true_and]
    rw [txOkGo_replicate_nak]
    simp only [txOkGo]
    exact ih (idx + 1)

theorem expectedTrace_txPayloads (e2 : Nat) (sched : Nat → Nat) :
    ∀ (cs : List (Nat × List Nat)) (idx : Nat),
      txPayloads (expectedTrace e2 sched idx cs) =
        cs.map (fun c => c.1 % 256 :: c.2) := by
  intro cs
  induction cs with
  | nil => intro idx; simp [expectedTrace, txPayloads]
  | cons c rest ih =>
    intro idx
    obtain ⟨a, payload⟩ := c
    simp only [expectedTrace, txPayloads, List.map_cons]
    rw [txPayloads_replicate_nak]
    simp only [txPayloads]
    rw [ih (idx + 1)]

theorem expectedTrace_ackCount (e2 : Nat) (sched : Nat → Nat) :
    ∀ (cs : List (Nat × List Nat)) (idx : Nat),
      ackCount (expectedTrace e2 sched idx cs) = cs.length := by
  intro cs
  induction cs with
  | nil => intro idx; simp [expectedTrace, ackCount]
  | cons c rest ih =>
    intro idx
    obtain ⟨a, payload⟩ := c
    simp only [expectedTrace, ackCount, List.length_cons]
    rw [ackCount_replicate_nak]
    simp only [ackCount]
    rw [ih (idx + 1)]

/-! ## Claim theorems: storage driver -/

/-- C1: the spec claims the device-select code combines a fixed base
with `e2_bit` and address bits 8-9, so that addresses 255 and 256 are
asserted with different codes.  The code computes
`0x57 | (e2_bit << 2) | a9_a8`, but `0x57` already has bits 0-2 set, so
both ORs are no-ops and every address is asserted with code `0x57` —
contradicting the function's own docstring
(`Device select format: 1010 E2 A9 A8`). -/
theorem C1_device_select_constant :
    (∀ e2 a, getDeviceAddress e2 a = 0x57) ∧
    getDeviceAddress 0 255 = 0x57 ∧ getDeviceAddress 0 256 = 0x57 := by
  have h : ∀ e2 a, getDeviceAddress e2 a = 0x57 := by
    intro e2 a
    have h1 : e2 &&& 1 ≤ 1 := Nat.and_le_right
    have h2 : (a >>> 8) &&& 3 ≤ 3 := Nat.and_le_right
    unfold getDeviceAddress
    rcases (by omega : e2 &&& 1 = 0 ∨ e2 &&& 1 = 1) with h' | h' <;>
      rcases (by omega : (a >>> 8) &&& 3 = 0 ∨ (a >>> 8) &&& 3 = 1 ∨
        (a >>> 8) &&& 3 = 2 ∨ (a >>> 8) &&& 3 = 3) with h'' | h'' | h'' | h'' <;>
      rw [h', h''] <;> rfl
  exact ⟨h, h 0 255, h 0 256⟩

/-- C4 counterexample: at address 1024 with length 0 we have
`A + L = memory_size`, yet both `read_bytes` and `write_bytes` raise
`RangeError` (the `address >= MEMORY_SIZE` guard fires), so the claim
"for `A + L == memory_size` they succeed" fails as universally
stated. -/
theorem C4_counterexample :
    (1024 : Int) + ((0 : Nat) : Int) = (MEMORY_SIZE : Int) ∧
    readBytes (fun _ => 0) 1024 0 = .error .range ∧
    writeBytes 0 1024 [] (fun _ => 0) 30 = .error .range :=
  ⟨by norm_num [MEMORY_SIZE], rfl, rfl⟩

/-- C4 (amended): for all `A`, `L` with `A + L > memory_size` both
`read_bytes` and `write_bytes` fail with `RangeError`; for
`A + L = memory_size` with `A` a valid address (`0 ≤ A < memory_size`)
neither raises `RangeError`. -/
theorem C4_range_validation (mem : Nat → Nat) (e2 : Nat) (address : Int)
    (data : List Nat) (sched : Nat → Nat) (budget : Nat) :
    (address + (data.length : Int) > (MEMORY_SIZE : Int) →
      readBytes mem address data.length = .error .range ∧
      writeBytes e2 address data sched budget = .error .range) ∧
    (0 ≤ address → address < (MEMORY_SIZE : Int) →
      address + (data.length : Int) = (MEMORY_SIZE : Int) →
      readBytes mem address data.length ≠ .error .range ∧
      writeBytes e2 address data sched budget ≠ .error .range) := by
  constructor
  · intro h
    have hv : validateAddress address data.length = false := by
      rw [← Bool.not_eq_true, validateAddress_true_iff]
      simp only [MEMORY_SIZE] at h ⊢
      push_cast at h ⊢
      omega
    exact ⟨by simp [readBytes, hv], by simp [writeBytes, hv]⟩
  · intro h0 h1 h2
    have hv : validateAddress address data.length = true := by
      rw [validateAddress_true_iff]
      simp only [MEMORY_SIZE] at h1 h2 ⊢
      push_cast at h2 ⊢
      omega
    refine ⟨by simp [readBytes, hv], ?_⟩
    simp only [writeBytes, hv, if_true]
    exact writeLoop_ne_range _ _ _ _ _

/-- Witness for C4: the range check at concrete inputs — a 100-byte
access at address 1000 overruns and raises `RangeError`; a 24-byte
access at address 1000 ends exactly at `memory_size` and does not. -/
theorem C4_range_validation_witness :
    (readBytes (fun _ => 0) 1000 (List.replicate 100 7).length
        = .error .range ∧
      writeBytes 0 1000 (List.replicate 100 7) (fun _ => 0) 30
        = .error .range) ∧
    (readBytes (fun _ => 0) 1000 (List.replicate 24 7).length
        ≠ .error .range ∧
      writeBytes 0 1000 (List.replicate 24 7) (fun _ => 0) 30
        ≠ .error .range) :=
  ⟨(C4_range_validation (fun _ => 0) 0 1000 (List.replicate 100 7)
      (fun _ => 0) 30).1 (by simp [MEMORY_SIZE]),
   (C4_range_validation (fun _ => 0) 0 1000 (List.replicate 24 7)
      (fun _ => 0) 30).2 (by norm_num) (by norm_num [MEMORY_SIZE])
      (by simp [MEMORY_SIZE])⟩

/-- C5: `write_bytes` splits the data into chunks aligned to absolute
16-byte page boundaries: the chunks concatenate back to the data, each
chunk is non-empty, starts where the previous ended and stays inside
one absolute page, exactly one bus transaction (address byte plus
payload) is issued per chunk, and writing 20 bytes at address 10
produces a 6-byte chunk at 10-15 followed by a 14-byte chunk at
16-29. -/
theorem C5_write_page_chunking (address : Nat) (data : List Nat) (e2 : Nat) :
    (writeChunks address data).flatMap Prod.snd = data ∧
    chunksOk address (writeChunks address data) = true ∧
    writeLoop e2 (fun _ => 0) 1 0 (writeChunks address data) =
      .ok ((writeChunks address data).flatMap (fun c =>
        [Ev.tx (getDeviceAddress e2 c.1) (c.1 % 256 :: c.2),
         Ev.probeAck (getDeviceAddress e2 c.1)])) ∧
    writeChunks 10 (List.replicate 20 0) =
      [(10, List.replicate 6 0), (16, List.replicate 14 0)] :=
  ⟨writeChunksGo_join _ _ _ le_rfl, writeChunksGo_ok _ _ _ le_rfl,
   writeLoop_instant _ _ _, by decide⟩

/-- C6: for a valid address and length, `read_bytes` returns exactly
`length` bytes, obtained as the in-order concatenation of chunks that
each stay within one 256-byte addressing block; reading 10 bytes from
address 252 splits into a 4-byte chunk (252-255) and a 6-byte chunk
(256-261). -/
theorem C6_read_block_chunking (mem : Nat → Nat) (address : Int)
    (length : Nat) (h : validateAddress address length = true) :
    readBytes mem address length =
      .ok ((readChunks address.toNat length).flatMap
        (fun c => (List.range c.2).map (fun i => mem (c.1 + i)))) ∧
    (∃ bs, readBytes mem address length = .ok bs ∧ bs.length = length) ∧
    readChunksOk address.toNat (readChunks address.toNat length) = true ∧
    ((readChunks address.toNat length).map Prod.snd).sum = length ∧
    readChunks 252 10 = [(252, 4), (256, 6)] := by
  have hbytes : readBytes mem address length =
      .ok ((readChunks address.toNat length).flatMap
        (fun c => (List.range c.2).map (fun i => mem (c.1 + i)))) := by
    simp [readBytes, h]
  have hlen : ((readChunks address.toNat length).flatMap
      (fun c => (List.range c.2).map (fun i => mem (c.1 + i)))).length
        = length := by
    rw [List.length_flatMap]
    simp only [Function.comp_def, List.length_map, List.length_range]
    exact readChunksGo_sum length address.toNat length le_rfl
  exact ⟨hbytes, ⟨_, hbytes, hlen⟩,
    readChunksGo_ok length address.toNat length le_rfl,
    readChunksGo_sum length address.toNat length le_rfl, by decide⟩

/-- Witness for C6 at the spec's own example: reading 10 bytes from
address 252 of an all-sevens memory. -/
theorem C6_read_block_chunking_witness :
    readBytes (fun _ => 7) 252 10 =
      .ok ((readChunks (252 : Int).toNat 10).flatMap
        (fun c => (List.range c.2).map (fun i => (fun _ => 7) (c.1 + i)))) ∧
    (∃ bs, readBytes (fun _ => 7) 252 10 = .ok bs ∧ bs.length = 10) ∧
    readChunksOk (252 : Int).toNat (readChunks (252 : Int).toNat 10) = true ∧
    ((readChunks (252 : Int).toNat 10).map Prod.snd).sum = 10 ∧
    readChunks 252 10 = [(252, 4), (256, 6)] :=
  C6_read_block_chunking (fun _ => 7) 252 10 (by rfl)

/-- C8: after each chunk transmission `write_bytes` blocks, issuing
zero-length probes until the device acknowledges; when every chunk's
write cycle completes within the poll budget the bus trace never
transmits a chunk before the previous chunk's acknowledged probe
(`noTxBeforeAck`), carries exactly one transmission per chunk and one
acknowledged probe per chunk; if some chunk exceeds the budget,
`write_bytes` fails with `WriteTimeoutError`. -/
theorem C8_ack_polling (e2 : Nat) (address : Int) (data : List Nat)
    (sched : Nat → Nat) (budget : Nat)
    (hv : validateAddress address data.length = true) :
    ((∀ i, i < (writeChunks address.toNat data).length → sched i < budget) →
      ∃ tr, writeBytes e2 address data sched budget = .ok tr ∧
        noTxBeforeAck tr = true ∧
        txPayloads tr =
          (writeChunks address.toNat data).map (fun c => c.1 % 256 :: c.2) ∧
        ackCount tr = (writeChunks address.toNat data).length) ∧
    ((∃ i, i < (writeChunks address.toNat data).length ∧ budget ≤ sched i) →
      writeBytes e2 address data sched budget = .error .timeout) := by
  constructor
  · intro hs
    refine ⟨expectedTrace e2 sched 0 (writeChunks address.toNat data),
      ?_, expectedTrace_noTx e2 sched _ 0,
      expectedTrace_txPayloads e2 sched _ 0,
      expectedTrace_ackCount e2 sched _ 0⟩
    simp only [writeBytes, hv, if_true]
    refine writeLoop_ok e2 sched budget _ 0 ?_
    intro i hi
    simpa using hs i hi
  · rintro ⟨i, hi, hb⟩
    simp only [writeBytes, hv, if_true]
    exact writeLoop_timeout e2 sched budget _ 0 ⟨i, hi, by simpa using hb⟩

/-- Witness for C8: a 3-byte write at address 0; with budget 2 and one
NAK per chunk the write succeeds with correctly interleaved polling,
with budget 1 it times out. -/
theorem C8_ack_polling_witness :
    (∃ tr, writeBytes 0 0 [1, 2, 3] (fun _ => 1) 2 = .ok tr ∧
      noTxBeforeAck tr = true ∧
      txPayloads tr =
        (writeChunks (0 : Int).toNat [1, 2, 3]).map
          (fun c => c.1 % 256 :: c.2) ∧
      ackCount tr = (writeChunks (0 : Int).toNat [1, 2, 3]).length) ∧
    writeBytes 0 0 [1, 2, 3] (fun _ => 1) 1 = .error .timeout :=
  ⟨(C8_ack_polling 0 0 [1, 2, 3] (fun _ => 1) 2 (by rfl)).1
      (by intro i hi; norm_num),
   (C8_ack_polling 0 0 [1, 2, 3] (fun _ => 1) 1 (by rfl)).2
      ⟨0, by decide, by norm_num⟩⟩

/-! ## Codec lemmas -/

theorem optionBind_some {α β : Type} (a : α) (f : α → Option β) :
    (some a >>= f) = f a := rfl

theorem optionBind_none {α β : Type} (f : α → Option β) :
    ((none : Option α) >>= f) = none := rfl

theorem parseAdcAddrs_length :
    ∀ (n : Nat) (bs : List Nat) (l : List String) (rest : List Nat),
      parseAdcAddrs n bs = some (l, rest) → l.length = n := by
  intro n
  induction n with
  | zero =>
    intro bs l rest h
    simp only [parseAdcAddrs, Option.some.injEq, Prod.mk.injEq] at h
    simp [← h.1]
  | succ m ih =>
    intro bs l rest h
    simp only [parseAdcAddrs, bind, Option.bind_eq_some] at h
    obtain ⟨⟨b, bs1⟩, hb, ⟨r, bs2⟩, hr, hfin⟩ := h
    simp only [Option.some.injEq, Prod.mk.injEq] at hfin
    have := ih bs1 r bs2 hr
    simp [← hfin.1, this]

theorem parseHardwareSec_num (str : StrParser) (bs : List Nat)
    (hw : Hardware) (rest : List Nat)
    (h : parseHardwareSec str bs = some (hw, rest)) :
    hw.num_of_adcs = some hw.adc_i2c_addrs.length := by
  simp only [parseHardwareSec, bind, Option.bind_eq_some] at h
  obtain ⟨⟨mode, bs1⟩, h1, ⟨⟨busId, sda, scl, dev, eep⟩, bs2⟩, h2,
    ⟨esz, bs3⟩, h3, ⟨gpio, bs4⟩, h4, ⟨nadc, bs5⟩, h5,
    ⟨addrs, bs6⟩, h6, ⟨srate, bs7⟩, h7, hfin⟩ := h
  simp only [Option.some.injEq, Prod.mk.injEq] at hfin
  rw [← hfin.1]
  simp [parseAdcAddrs_length nadc bs5 addrs bs6 h6]

/-! ## Claim theorems: codec -/

/-- C7: packing a text field longer than 255 UTF-8 bytes fails with
`EncodingError` (and so does `pack_config` on such a record); at
exactly 255 bytes it succeeds, emitting the length byte 255 followed by
the 255 bytes. -/
theorem C7_pack_string_bound (s : List Nat) :
    (255 < s.length → pack_string s = none) ∧
    (s.length = 255 → pack_string s = some (255 :: s)) ∧
    (∀ cfg : Config, cfg.module_type = s → 255 < s.length →
      packConfig cfg = none) := by
  refine ⟨?_, ?_, ?_⟩
  · intro h
    simp [pack_string, h]
  · intro h
    simp [pack_string, h]
  · intro cfg hm h
    have hs : pack_string cfg.module_type = none := by
      rw [hm]; simp [pack_string, h]
    simp [packConfig, hs, optionBind_none]

/-- Witness for C7 at 256- and 255-byte fields. -/
theorem C7_pack_string_bound_witness :
    pack_string (List.replicate 256 0) = none ∧
    pack_string (List.replicate 255 0) = some (255 :: List.replicate 255 0) ∧
    packConfig { cxConfig with module_type := List.replicate 256 0 } = none :=
  ⟨(C7_pack_string_bound (List.replicate 256 0)).1
      (by simp only [List.length_replicate]; norm_num),
   (C7_pack_string_bound (List.replicate 255 0)).2.1
      (by simp only [List.length_replicate]),
   (C7_pack_string_bound (List.replicate 256 0)).2.2 _ rfl
      (by simp only [List.length_replicate]; norm_num)⟩

/-- C10: `unpack_config` always returns a hardware section whose
`num_of_adcs` equals the length of the decoded `adc_i2c_addrs` list;
`pack_config` never reads the field (packing is invariant under any
value of it); hence a record whose hardware dict lacks the key is
unpacked to one where it is present. -/
theorem C10_num_of_adcs :
    (∀ buf cfg, unpackConfig buf = some cfg →
      cfg.hardware.num_of_adcs = some cfg.hardware.adc_i2c_addrs.length) ∧
    (∀ (cfg : Config) (x : Option Nat),
      packConfig { cfg with
        hardware := { cfg.hardware with num_of_adcs := x } } = packConfig cfg) ∧
    (∀ cfg bs cfg', cfg.hardware.num_of_adcs = none →
      packConfig cfg = some bs → unpackConfig bs = some cfg' →
      cfg.hardware.num_of_adcs ≠ cfg'.hardware.num_of_adcs ∧
      cfg'.hardware.num_of_adcs = some cfg'.hardware.adc_i2c_addrs.length) := by
  have key : ∀ buf cfg, unpackConfig buf = some cfg →
      cfg.hardware.num_of_adcs = some cfg.hardware.adc_i2c_addrs.length := by
    intro buf cfg h
    simp only [unpackConfig, unpackConfigAux, bind, Option.bind_eq_some] at h
    obtain ⟨⟨mt, bs1⟩, h1, ⟨mz, bs2⟩, h2, ⟨nch, bs3⟩, h3, ⟨chs, bs4⟩, h4,
      ⟨net, bs5⟩, h5, ⟨mq, bs6⟩, h6, ⟨hw, bs7⟩, h7,
      ⟨⟨pinc, status⟩, bs8⟩, h8, hfin⟩ := h
    simp only [Option.some.injEq] at hfin
    rw [← hfin]
    exact parseHardwareSec_num _ _ _ _ h7
  refine ⟨key, ?_, ?_⟩
  · intro cfg x
    rfl
  · intro cfg bs cfg' hnone hp hu
    have hlen := key bs cfg' hu
    refine ⟨?_, hlen⟩
    rw [hnone, hlen]
    simp

/-- Witness for C10 on a concrete record without the `num_of_adcs`
key. -/
theorem C10_num_of_adcs_witness :
    witConfigRT.hardware.num_of_adcs
      = some witConfigRT.hardware.adc_i2c_addrs.length ∧
    packConfig { witConfig with
      hardware := { witConfig.hardware with num_of_adcs := some 5 } }
      = packConfig witConfig ∧
    (witConfig.hardware.num_of_adcs ≠ witConfigRT.hardware.num_of_adcs ∧
      witConfigRT.hardware.num_of_adcs
        = some witConfigRT.hardware.adc_i2c_addrs.length) :=
  ⟨C10_num_of_adcs.1 witBytes witConfigRT (by rfl),
   C10_num_of_adcs.2.1 witConfig (some 5),
   C10_num_of_adcs.2.2 witConfig witBytes witConfigRT rfl (by rfl) (by rfl)⟩

theorem optionBindF_some {α β : Type} (a : α) (f : α → Option β) :
    Option.bind (some a) f = f a := rfl

theorem optionBindF_none {α β : Type} (f : α → Option β) :
    Option.bind none f = none := rfl

/-- C9: a channel whose `shunt_resistance` or `adc_offset` is negative
is not rejected by the codec: `pack_config` still succeeds and stores
`int(value * 1000)` masked into that field's unsigned 16-bit slot, so a
value `≤ -0.001` (above the wrap-around) is stored as
`65536 + int(value * 1000)` and decodes to a positive number different
from the original — the negative input wraps. -/
theorem C9_negative_fixed_point (ch : Channel) (q : ℚ)
    (hq : ch.shunt_resistance = some q ∨ ch.adc_offset = some q)
    (hneg : q < 0)
    (hname : ch.name.length ≤ 255)
    (hct : (pyIntDec ch.channel_type).isSome = true)
    (hit : (pyIntDec ch.interface_type).isSome = true)
    (hmr : ch.measurement_range.all (fun s => (pyIntBin s).isSome) = true) :
    (∃ pre post,
      packChannel ch = some (pre ++ u16be (fixEncode q) ++ post)) ∧
    (q ≤ -(1 / 1000) → -65536 < truncTowardZero (q * 1000) →
      (fixEncode q : Int) = 65536 + truncTowardZero (q * 1000) ∧
      0 < fixDecode (fixEncode q) ∧ fixDecode (fixEncode q) ≠ q) := by
  constructor
  · obtain ⟨t, ht⟩ := Option.isSome_iff_exists.mp hct
    obtain ⟨it2, hit2⟩ := Option.isSome_iff_exists.mp hit
    have hn : pack_string ch.name = some (ch.name.length :: ch.name) := by
      simp only [pack_string]
      rw [if_neg (by omega)]
    rcases hq with hsh | hoff
    · cases hmrc : ch.measurement_range with
      | none =>
        refine ⟨(ch.name.length :: ch.name) ++
            [t % 256, it2 % 256, ch.channel_number % 256, ch.actions % 256,
              presenceByte ch] ++
            (match ch.adc_hardware_gain with
              | none => [] | some g => u32be g),
          (match ch.adc_offset with
            | none => [] | some p => u16be (fixEncode p)), ?_⟩
        simp [packChannel, bind, hn, ht, hit2, hmrc, hsh,
          optionBindF_some, List.append_assoc]
      | some s =>
        have hv : (pyIntBin s).isSome = true := by
          rw [hmrc] at hmr
          simpa using hmr
        obtain ⟨v, hv2⟩ := Option.isSome_iff_exists.mp hv
        refine ⟨(ch.name.length :: ch.name) ++
            [t % 256, it2 % 256, ch.channel_number % 256, ch.actions % 256,
              presenceByte ch] ++
            [v % 256] ++
            (match ch.adc_hardware_gain with
              | none => [] | some g => u32be g),
          (match ch.adc_offset with
            | none => [] | some p => u16be (fixEncode p)), ?_⟩
        simp [packChannel, bind, hn, ht, hit2, hmrc, hsh, hv2,
          optionBindF_some, List.append_assoc]
    · cases hmrc : ch.measurement_range with
      | none =>
        refine ⟨(ch.name.length :: ch.name) ++
            [t % 256, it2 % 256, ch.channel_number % 256, ch.actions % 256,
              presenceByte ch] ++
            (match ch.adc_hardware_gain with
              | none => [] | some g => u32be g) ++
            (match ch.shunt_resistance with
              | none => [] | some w => u16be (fixEncode w)),
          [], ?_⟩
        simp [packChannel, bind, hn, ht, hit2, hmrc, hoff,
          optionBindF_some, List.append_assoc]
      | some s =>
        have hv : (pyIntBin s).isSome = true := by
          rw [hmrc] at hmr
          simpa using hmr
        obtain ⟨v, hv2⟩ := Option.isSome_iff_exists.mp hv
        refine ⟨(ch.name.length :: ch.name) ++
            [t % 256, it2 % 256, ch.channel_number % 256, ch.actions % 256,
              presenceByte ch] ++
            [v % 256] ++
            (match ch.adc_hardware_gain with
              | none => [] | some g => u32be g) ++
            (match ch.shunt_resistance with
              | none => [] | some w => u16be (fixEncode w)),
          [], ?_⟩
        simp [packChannel, bind, hn, ht, hit2, hmrc, hoff, hv2,
          optionBindF_some, List.append_assoc]
  · intro hq1 hq2
    have hq1000 : q * 1000 ≤ -1 := by linarith
    have htr : truncTowardZero (q * 1000) ≤ -1 := by
      unfold truncTowardZero
      rw [if_neg (by push_neg; linarith)]
      exact Int.ceil_le.mpr (by exact_mod_cast hq1000)
    have hemod : truncTowardZero (q * 1000) % 65536
        = truncTowardZero (q * 1000) + 65536 := by omega
    have henc : (fixEncode q : Int)
        = 65536 + truncTowardZero (q * 1000) := by
      unfold fixEncode
      rw [hemod]
      omega
    have hnat : 0 < fixEncode q := by omega
    have h0 : (0 : ℚ) < (fixEncode q : ℚ) := by exact_mod_cast hnat
    have hpos : 0 < fixDecode (fixEncode q) := by
      unfold fixDecode
      exact div_pos h0 (by norm_num)
    exact ⟨henc, hpos, ne_of_gt (lt_trans hneg hpos)⟩

/-- Witness for C9, covering both fixed-point fields: a channel with
`shunt_resistance = -0.05` packs and the field decodes to `65.486`, and
a channel whose only analog field is `adc_offset = -0.07` (shunt
absent) packs and the field decodes to `65.466` — never `-0.05` or
`-0.07`. -/
theorem C9_negative_fixed_point_witness :
    ((∃ pre post,
      packChannel { cxChannel with shunt_resistance := some (-(5 / 100)) }
        = some (pre ++ u16be (fixEncode (-(5 / 100))) ++ post)) ∧
    ((fixEncode (-(5 / 100)) : Int)
        = 65536 + truncTowardZero (-(5 / 100) * 1000) ∧
      0 < fixDecode (fixEncode (-(5 / 100))) ∧
      fixDecode (fixEncode (-(5 / 100))) ≠ -(5 / 100))) ∧
    ((∃ pre post,
      packChannel { cxChannel with shunt_resistance := none, adc_offset := some (-(7 / 100)) }
        = some (pre ++ u16be (fixEncode (-(7 / 100))) ++ post)) ∧
    ((fixEncode (-(7 / 100)) : Int)
        = 65536 + truncTowardZero (-(7 / 100) * 1000) ∧
      0 < fixDecode (fixEncode (-(7 / 100))) ∧
      fixDecode (fixEncode (-(7 / 100))) ≠ -(7 / 100))) := by
  have hs := C9_negative_fixed_point
    { cxChannel with shunt_resistance := some (-(5 / 100)) } (-(5 / 100))
    (Or.inl rfl) (by norm_num) (by decide) (by rfl) (by rfl) (by rfl)
  have ho := C9_negative_fixed_point
    { cxChannel with shunt_resistance := none, adc_offset := some (-(7 / 100)) } (-(7 / 100))
    (Or.inr rfl) (by norm_num) (by decide) (by rfl) (by rfl) (by rfl)
  constructor
  · refine ⟨hs.1, hs.2 (by norm_num) ?_⟩
    have h5 : (-(5 / 100) : ℚ) * 1000 = -50 := by norm_num
    rw [h5]
    unfold truncTowardZero
    rw [if_neg (by norm_num)]
    have h50 : ((-50 : ℚ)) = ((-50 : Int) : ℚ) := by norm_num
    rw [h50, Int.ceil_intCast]
    norm_num
  · refine ⟨ho.1, ho.2 (by norm_num) ?_⟩
    have h7 : (-(7 / 100) : ℚ) * 1000 = -70 := by norm_num
    rw [h7]
    unfold truncTowardZero
    rw [if_neg (by norm_num)]
    have h70 : ((-70 : ℚ)) = ((-70 : Int) : ℚ) := by norm_num
    rw [h70, Int.ceil_intCast]
    norm_num

/-! ## Serialize-then-parse lemmas -/

theorem unpack_string_append (s rest : List Nat) :
    unpack_string (s.length :: (s ++ rest)) = some (s, rest) := by
  simp only [unpack_string, List.take_left, List.drop_left]

theorem readByte_cons (b : Nat) (rest : List Nat) :
    readByte (b :: rest) = some (b, rest) := rfl

theorem readU16_append (n : Nat) (rest : List Nat) :
    readU16 (u16be n ++ rest) = some (n % 65536, rest) := by
  simp only [u16be, List.cons_append, List.nil_append, readU16,
    Option.some.injEq, Prod.mk.injEq]
  exact ⟨by omega, trivial⟩

theorem readU32_append (n : Nat) (rest : List Nat) :
    readU32 (u32be n ++ rest) = some (n % 4294967296, rest) := by
  simp only [u32be, List.cons_append, List.nil_append, readU32,
    Option.some.injEq, Prod.mk.injEq]
  exact ⟨by omega, trivial⟩

theorem presence_bit0 (a b c d : Bool) :
    ((if a then 1 else 0) + (if b then 2 else 0) + (if c then 4 else 0) +
      (if d then 8 else 0)) % 2 = 1 ↔ a = true := by
  cases a <;> cases b <;> cases c <;> cases d <;> decide

theorem presence_bit1 (a b c d : Bool) :
    ((if a then 1 else 0) + (if b then 2 else 0) + (if c then 4 else 0) +
      (if d then 8 else 0)) / 2 % 2 = 1 ↔ b = true := by
  cases a <;> cases b <;> cases c <;> cases d <;> decide

theorem presence_bit2 (a b c d : Bool) :
    ((if a then 1 else 0) + (if b then 2 else 0) + (if c then 4 else 0) +
      (if d then 8 else 0)) / 4 % 2 = 1 ↔ c = true := by
  cases a <;> cases b <;> cases c <;> cases d <;> decide

theorem presence_bit3 (a b c d : Bool) :
    ((if a then 1 else 0) + (if b then 2 else 0) + (if c then 4 else 0) +
      (if d then 8 else 0)) / 8 % 2 = 1 ↔ d = true := by
  cases a <;> cases b <;> cases c <;> cases d <;> decide

theorem fixEncode_lt (q : ℚ) : fixEncode q < 65536 := by
  unfold fixEncode
  omega

theorem fixEncode_mod (q : ℚ) : fixEncode q % 65536 = fixEncode q :=
  Nat.mod_eq_of_lt (fixEncode_lt q)

set_option maxHeartbeats 4000000 in
theorem channel_rt (ch : Channel) (hwf : WFchannel ch) :
    ∃ bytes, packChannel ch = some bytes ∧
      ∀ rest, parseChannel unpack_string (bytes ++ rest)
        = some (rtChannel ch, rest) := by
  obtain ⟨hname, hct, hit, hcn, hact, hmr, hgain, hsh, hoff⟩ := hwf
  rcases hpc : pyIntDec ch.channel_type with _ | t
  · rw [WFdecStr, hpc] at hct
    simp at hct
  rcases hpi : pyIntDec ch.interface_type with _ | t2
  · rw [WFdecStr, hpi] at hit
    simp at hit
  rw [WFdecStr, hpc] at hct
  rw [WFdecStr, hpi] at hit
  simp only [Bool.and_eq_true, decide_eq_true_eq, beq_iff_eq] at hct hit
  obtain ⟨ht256, htrep⟩ := hct
  obtain ⟨ht2256, ht2rep⟩ := hit
  have hn : pack_string ch.name = some (ch.name.length :: ch.name) := by
    simp only [pack_string]
    rw [if_neg (by omega)]
  rcases hmrc : ch.measurement_range with _ | s
  · have hpk : packChannel ch = some ((ch.name.length :: ch.name) ++
        [t % 256, t2 % 256, ch.channel_number % 256, ch.actions % 256,
          presenceByte ch] ++
        (match ch.adc_hardware_gain with | none => [] | some g => u32be g) ++
        (match ch.shunt_resistance with
          | none => [] | some q => u16be (fixEncode q)) ++
        (match ch.adc_offset with
          | none => [] | some p => u16be (fixEncode p))) := by
      simp only [packChannel, bind, hn, hpc, hpi, hmrc, optionBindF_some,
        List.append_nil]
    refine ⟨_, hpk, ?_⟩
    intro rest
    rcases hgc : ch.adc_hardware_gain with _ | g <;>
      rcases hsc : ch.shunt_resistance with _ | q <;>
      rcases hoc : ch.adc_offset with _ | p <;>
      simp only [hgc, hsc, hoc, Option.all, decide_eq_true_eq]
        at hgain hsh hoff <;>
      simp [*, parseChannel, bind, optionBindF_some, unpack_string_append,
        read4, readByte, readU16_append, readU32_append, presenceByte,
        rtChannel, Nat.mod_eq_of_lt, fixEncode_mod, List.append_assoc,
        List.cons_append, List.nil_append]
  · rw [hmrc] at hmr
    simp only [Option.all, WFbinStr] at hmr
    rcases hpb : pyIntBin s with _ | v
    · rw [hpb] at hmr
      simp at hmr
    rw [hpb] at hmr
    simp only [Bool.and_eq_true, decide_eq_true_eq, beq_iff_eq] at hmr
    obtain ⟨hv256, hvrep⟩ := hmr
    have hpk : packChannel ch = some ((ch.name.length :: ch.name) ++
        [t % 256, t2 % 256, ch.channel_number % 256, ch.actions % 256,
          presenceByte ch] ++ [v % 256] ++
        (match ch.adc_hardware_gain with | none => [] | some g => u32be g) ++
        (match ch.shunt_resistance with
          | none => [] | some q => u16be (fixEncode q)) ++
        (match ch.adc_offset with
          | none => [] | some p => u16be (fixEncode p))) := by
      simp only [packChannel, bind, hn, hpc, hpi, hmrc, hpb, optionBindF_some]
    refine ⟨_, hpk, ?_⟩
    intro rest
    rcases hgc : ch.adc_hardware_gain with _ | g <;>
      rcases hsc : ch.shunt_resistance with _ | q <;>
      rcases hoc : ch.adc_offset with _ | p <;>
      simp only [hgc, hsc, hoc, Option.all, decide_eq_true_eq]
        at hgain hsh hoff <;>
      simp [*, parseChannel, bind, optionBindF_some, unpack_string_append,
        read4, readByte, readU16_append, readU32_append, presenceByte,
        rtChannel, Nat.mod_eq_of_lt, fixEncode_mod, List.append_assoc,
        List.cons_append, List.nil_append]

theorem channels_rt (l : List Channel) (hwf : ∀ ch ∈ l, WFchannel ch) :
    ∃ bytes, packChannels l = some bytes ∧
      ∀ rest, parseChannels unpack_string l.length (bytes ++ rest)
        = some (l.map rtChannel, rest) := by
  induction l with
  | nil => exact ⟨[], rfl, fun rest => by simp [parseChannels]⟩
  | cons ch tl ih =>
    obtain ⟨b1, hp1, hparse1⟩ := channel_rt ch (hwf ch (by simp))
    obtain ⟨b2, hp2, hparse2⟩ := ih (fun c hc => hwf c (by simp [hc]))
    refine ⟨b1 ++ b2, ?_, ?_⟩
    · simp [packChannels, bind, hp1, hp2, optionBindF_some]
    · intro rest
      simp only [List.length_cons, parseChannels, bind, List.append_assoc,
        hparse1 (b2 ++ rest), optionBindF_some, hparse2 rest, List.map_cons]

theorem network_rt (n : Network) (h1 : n.wifi_ssid.length ≤ 255)
    (h2 : n.wifi_password.length ≤ 255) :
    ∃ bytes, packNetworkSec n = some bytes ∧
      ∀ rest, parseNetworkSec unpack_string (bytes ++ rest)
        = some (n, rest) := by
  have hs : pack_string n.wifi_ssid
      = some (n.wifi_ssid.length :: n.wifi_ssid) := by
    simp only [pack_string]; rw [if_neg (by omega)]
  have hp : pack_string n.wifi_password
      = some (n.wifi_password.length :: n.wifi_password) := by
    simp only [pack_string]; rw [if_neg (by omega)]
  refine ⟨(n.wifi_ssid.length :: n.wifi_ssid) ++
    (n.wifi_password.length :: n.wifi_password), ?_, ?_⟩
  · simp [packNetworkSec, bind, hs, hp, optionBindF_some]
  · intro rest
    simp [parseNetworkSec, bind, optionBindF_some, unpack_string_append,
      List.append_assoc, List.cons_append]

theorem mqtt_rt (m : Mqtt) (h1 : m.broker.length ≤ 255)
    (h2 : m.port < 65536) (h3 : m.client_id.length ≤ 255)
    (h4 : m.base_topic.length ≤ 255) :
    ∃ bytes, packMqttSec m = some bytes ∧
      ∀ rest, parseMqttSec unpack_string (bytes ++ rest)
        = some (m, rest) := by
  have hb : pack_string m.broker = some (m.broker.length :: m.broker) := by
    simp only [pack_string]; rw [if_neg (by omega)]
  have hc : pack_string m.client_id
      = some (m.client_id.length :: m.client_id) := by
    simp only [pack_string]; rw [if_neg (by omega)]
  have ht : pack_string m.base_topic
      = some (m.base_topic.length :: m.base_topic) := by
    simp only [pack_string]; rw [if_neg (by omega)]
  refine ⟨(m.broker.length :: m.broker) ++ u16be m.port ++
    (m.client_id.length :: m.client_id) ++
    (m.base_topic.length :: m.base_topic), ?_, ?_⟩
  · simp [packMqttSec, bind, hb, hc, ht, optionBindF_some]
  · intro rest
    simp [parseMqttSec, bind, optionBindF_some, unpack_string_append,
      readU16_append, Nat.mod_eq_of_lt h2, List.append_assoc,
      List.cons_append]

theorem adc_rt (l : List String) (h : ∀ s ∈ l, WFhexStr s = true) :
    ∃ bytes, packAdcAddrs l = some bytes ∧
      ∀ rest, parseAdcAddrs l.length (bytes ++ rest) = some (l, rest) := by
  induction l with
  | nil => exact ⟨[], rfl, fun rest => by simp [parseAdcAddrs]⟩
  | cons s tl ih =>
    have hs := h s (by simp)
    rw [WFhexStr] at hs
    rcases hps : pyIntHex s with _ | v
    · rw [hps] at hs; simp at hs
    rw [hps] at hs
    simp only [Bool.and_eq_true, decide_eq_true_eq, beq_iff_eq] at hs
    obtain ⟨hv256, hvrep⟩ := hs
    obtain ⟨b2, hp2, hparse2⟩ := ih (fun x hx => h x (by simp [hx]))
    refine ⟨v % 256 :: b2, ?_, ?_⟩
    · simp [packAdcAddrs, bind, hps, hp2, optionBindF_some]
    · intro rest
      simp only [List.length_cons, parseAdcAddrs, bind, List.cons_append,
        readByte_cons, optionBindF_some, hparse2 rest,
        Nat.mod_eq_of_lt hv256, hvrep]

theorem gpio_nibbles (a b : Nat) (ha : a < 16) (hb : b < 16) :
    (a % 16 * 16 + b % 16) / 16 % 16 = a ∧
      (a % 16 * 16 + b % 16) % 16 = b := by omega

set_option maxHeartbeats 1000000 in
theorem hardware_rt (hw : Hardware) (hmode : hw.mode.length ≤ 255)
    (hbus : hw.i2c_bus_id < 256) (hsda : hw.i2c_sda_pin < 256)
    (hscl : hw.i2c_scl_pin < 256)
    (hdev : WFhexStr hw.i2c_device_addr = true)
    (heep : WFhexStr hw.eeprom_i2c_addr = true)
    (hesz : hw.eeprom_size < 65536)
    (hglen : hw.gpio_host_pins.length = 8)
    (hgpins : ∀ p ∈ hw.gpio_host_pins, p < 16)
    (hadlen : hw.adc_i2c_addrs.length ≤ 255)
    (hadc : ∀ s ∈ hw.adc_i2c_addrs, WFhexStr s = true)
    (hsr : hw.adc_sampling_rate < 65536) :
    ∃ bytes, packHardwareSec hw = some bytes ∧
      ∀ rest, parseHardwareSec unpack_string (bytes ++ rest)
        = some ({ hw with
            num_of_adcs := some hw.adc_i2c_addrs.length }, rest) := by
  have hm : pack_string hw.mode = some (hw.mode.length :: hw.mode) := by
    simp only [pack_string]; rw [if_neg (by omega)]
  rw [WFhexStr] at hdev heep
  rcases hpd : pyIntHex hw.i2c_device_addr with _ | dv
  · rw [hpd] at hdev; simp at hdev
  rcases hpe : pyIntHex hw.eeprom_i2c_addr with _ | ev
  · rw [hpe] at heep; simp at heep
  rw [hpd] at hdev
  rw [hpe] at heep
  simp only [Bool.and_eq_true, decide_eq_true_eq, beq_iff_eq] at hdev heep
  obtain ⟨hdv256, hdvrep⟩ := hdev
  obtain ⟨hev256, hevrep⟩ := heep
  obtain ⟨g1, g2, g3, g4, g5, g6, g7, g8, hg⟩ :
      ∃ a b c d e f g' h', hw.gpio_host_pins = [a, b, c, d, e, f, g', h'] := by
    rcases hwg : hw.gpio_host_pins with
      _ | ⟨a, _ | ⟨b, _ | ⟨c, _ | ⟨d, _ | ⟨e, _ | ⟨f, _ | ⟨g', _ |
        ⟨h', _ | ⟨i, tl⟩⟩⟩⟩⟩⟩⟩⟩⟩ <;>
      rw [hwg] at hglen <;>
      simp only [List.length_nil, List.length_cons] at hglen <;>
      first
        | omega
        | exact ⟨_, _, _, _, _, _, _, _, rfl⟩
  have hg1 : g1 < 16 := hgpins g1 (by rw [hg]; simp)
  have hg2 : g2 < 16 := hgpins g2 (by rw [hg]; simp)
  have hg3 : g3 < 16 := hgpins g3 (by rw [hg]; simp)
  have hg4 : g4 < 16 := hgpins g4 (by rw [hg]; simp)
  have hg5 : g5 < 16 := hgpins g5 (by rw [hg]; simp)
  have hg6 : g6 < 16 := hgpins g6 (by rw [hg]; simp)
  have hg7 : g7 < 16 := hgpins g7 (by rw [hg]; simp)
  have hg8 : g8 < 16 := hgpins g8 (by rw [hg]; simp)
  have hpg : packGpio [g1, g2, g3, g4, g5, g6, g7, g8] =
      [g1 % 16 * 16 + g2 % 16, g3 % 16 * 16 + g4 % 16,
       g5 % 16 * 16 + g6 % 16, g7 % 16 * 16 + g8 % 16] := rfl
  obtain ⟨ab, hpa, hparsea⟩ := adc_rt hw.adc_i2c_addrs hadc
  refine ⟨(hw.mode.length :: hw.mode) ++
    [hw.i2c_bus_id % 256, hw.i2c_sda_pin % 256, hw.i2c_scl_pin % 256,
      dv % 256, ev % 256] ++
    u16be hw.eeprom_size ++
    packGpio hw.gpio_host_pins ++
    [hw.adc_i2c_addrs.length % 256] ++ ab ++
    u16be hw.adc_sampling_rate, ?_, ?_⟩
  · simp [packHardwareSec, bind, hm, hpd, hpe, hpa, optionBindF_some]
  · intro rest
    have hn1 := (gpio_nibbles g1 g2 hg1 hg2).1
    have hn2 := (gpio_nibbles g1 g2 hg1 hg2).2
    have hn3 := (gpio_nibbles g3 g4 hg3 hg4).1
    have hn4 := (gpio_nibbles g3 g4 hg3 hg4).2
    have hn5 := (gpio_nibbles g5 g6 hg5 hg6).1
    have hn6 := (gpio_nibbles g5 g6 hg5 hg6).2
    have hn7 := (gpio_nibbles g7 g8 hg7 hg8).1
    have hn8 := (gpio_nibbles g7 g8 hg7 hg8).2
    simp [parseHardwareSec, bind, optionBindF_some, unpack_string_append,
      read5, readByte, readU16_append, hpg, parseGpio,
      hparsea, Nat.mod_eq_of_lt, hbus, hsda, hscl, hdv256, hev256, hesz,
      hsr, Nat.mod_eq_of_lt (show hw.adc_i2c_addrs.length < 256 by omega),
      hdvrep, hevrep, hn1, hn2, hn3, hn4,
      hn5, hn6, hn7, hn8, hg, List.append_assoc, List.cons_append]

set_option maxHeartbeats 1000000 in
theorem config_rt (cfg : Config) (h : WFconfig cfg) :
    ∃ bytes, packConfig cfg = some bytes ∧
      unpackConfig bytes = some (rtConfig cfg) := by
  obtain ⟨hmt, hmz, hchlen, hchs, hssid, hpwd, hbrok, hport, hcid, hbt,
    hmode, hbus, hsda, hscl, hdev, heep, hesz, hglen, hgpins, hadlen,
    hadc, hsr, hpin, hstat⟩ := h
  have h1 : pack_string cfg.module_type
      = some (cfg.module_type.length :: cfg.module_type) := by
    simp only [pack_string]; rw [if_neg (by omega)]
  have h2 : pack_string cfg.mezzanine_type
      = some (cfg.mezzanine_type.length :: cfg.mezzanine_type) := by
    simp only [pack_string]; rw [if_neg (by omega)]
  obtain ⟨cb, hpc, hparsec⟩ := channels_rt cfg.channels hchs
  obtain ⟨nb, hpn, hparsen⟩ := network_rt cfg.network hssid hpwd
  obtain ⟨mb, hpm, hparsem⟩ := mqtt_rt cfg.mqtt hbrok hport hcid hbt
  obtain ⟨hb, hph, hparseh⟩ := hardware_rt cfg.hardware hmode hbus hsda
    hscl hdev heep hesz hglen hgpins hadlen hadc hsr
  rw [WFbinStr] at hpin
  rcases hpp : pyIntBin cfg.pin_config with _ | pv
  · rw [hpp] at hpin; simp at hpin
  rw [hpp] at hpin
  simp only [Bool.and_eq_true, decide_eq_true_eq, beq_iff_eq] at hpin
  obtain ⟨hpv256, hpvrep⟩ := hpin
  refine ⟨(cfg.module_type.length :: cfg.module_type) ++
    (cfg.mezzanine_type.length :: cfg.mezzanine_type) ++
    [cfg.channels.length % 256] ++ cb ++ nb ++ mb ++ hb ++
    [pv % 256, min cfg.status_update_interval_s 255], ?_, ?_⟩
  · simp [packConfig, bind, h1, h2, hpc, hpn, hpm, hph, hpp,
      optionBindF_some]
  · simp [unpackConfig, unpackConfigAux, bind, optionBindF_some,
      unpack_string_append, readByte_cons,
      Nat.mod_eq_of_lt (show cfg.channels.length < 256 by omega),
      hparsec, hparsen, hparsem, hparseh, read2,
      Nat.mod_eq_of_lt hpv256, hpvrep, rtConfig,
      Nat.min_eq_left hstat, List.append_assoc, List.cons_append]

theorem fix_roundtrip_error (q : ℚ) (h : WFfix q) :
    0 ≤ q - fixDecode (fixEncode q) ∧
      q - fixDecode (fixEncode q) < 1 / 1000 := by
  obtain ⟨hq0, hlt⟩ := h
  have h0 : truncTowardZero (q * 1000) = ⌊q * 1000⌋ := by
    unfold truncTowardZero
    rw [if_pos (by positivity)]
  rw [h0] at hlt
  have hfl0 : 0 ≤ ⌊q * 1000⌋ := Int.floor_nonneg.mpr (by positivity)
  have henc : (fixEncode q : ℚ) = (⌊q * 1000⌋ : ℚ) := by
    unfold fixEncode
    rw [h0]
    have hm : ⌊q * 1000⌋ % 65536 = ⌊q * 1000⌋ := by omega
    rw [hm]
    have h2 : ((⌊q * 1000⌋.toNat : Int) : ℚ) = ((⌊q * 1000⌋ : Int) : ℚ) := by
      rw [Int.toNat_of_nonneg hfl0]
    exact_mod_cast h2
  unfold fixDecode
  rw [henc]
  have hle := Int.floor_le (q * 1000)
  have hlt2 := Int.lt_floor_add_one (q * 1000)
  constructor
  · linarith
  · linarith

theorem wf_fix_cx : WFfix (9999 / 10000) := by
  constructor
  · norm_num
  · unfold truncTowardZero
    rw [if_pos (by norm_num)]
    have h1 : ((9999 : ℚ) / 10000) * 1000 = 9999 / 10 := by norm_num
    rw [h1]
    have h2 : ⌊(9999 / 10 : ℚ)⌋ = 999 := by norm_num
    rw [h2]
    norm_num

theorem wf_cxConfig : WFconfig cxConfig := by
  have hch : ∀ ch ∈ cxConfig.channels, WFchannel ch := by
    intro ch hc
    simp only [cxConfig, List.mem_singleton] at hc
    subst hc
    refine ⟨(by decide), (by decide), (by decide), (by decide),
      (by decide), (by rfl), (by rfl), ?_, (by rfl)⟩
    show Option.all _ (some (9999 / 10000)) = true
    simp only [Option.all, decide_eq_true_eq]
    exact wf_fix_cx
  exact ⟨(by decide), (by decide), (by decide), hch, (by decide),
    (by decide), (by decide), (by decide), (by decide), (by decide),
    (by decide), (by decide), (by decide), (by decide), (by decide),
    (by decide), (by decide), (by decide), (by decide), (by decide),
    (by decide), (by decide), (by decide), (by decide)⟩
theorem fixEncode_cx : fixEncode (9999 / 10000) = 999 := by
  unfold fixEncode truncTowardZero
  rw [if_pos (by norm_num)]
  have h1 : ((9999 : ℚ) / 10000) * 1000 = 9999 / 10 := by norm_num
  rw [h1]
  have h2 : ⌊(9999 / 10 : ℚ)⌋ = 999 := by norm_num
  rw [h2]
  rfl

/-- C2 counterexample: for the well-formed record `cxConfig` with
`shunt_resistance = 0.9999`, pack-then-unpack succeeds but the decoded
fixed-point value is `0.999`, an error of `0.0009`, violating the
claimed bound `|decoded - original| < 0.0005` (truncation toward zero
loses up to `0.001`, not `0.0005`). -/
theorem C2_roundtrip_counterexample :
    (∃ bytes, packConfig cxConfig = some bytes ∧
      unpackConfig bytes = some (rtConfig cxConfig)) ∧
    cxConfig.channels.map (fun c => c.shunt_resistance)
      = [some (9999 / 10000)] ∧
    (rtConfig cxConfig).channels.map (fun c => c.shunt_resistance)
      = [some (999 / 1000)] ∧
    ¬ |(999 / 1000 : ℚ) - 9999 / 10000| < 5 / 10000 := by
  refine ⟨config_rt cxConfig wf_cxConfig, rfl, ?_, ?_⟩
  · simp only [rtConfig, cxConfig, cxChannel, List.map_cons, List.map_nil,
      rtChannel, Option.map_some, fixEncode_cx]
    norm_num [fixDecode, fixEncode_cx]
  · have hd : (999 / 1000 : ℚ) - 9999 / 10000 = -(9 / 10000) := by
      norm_num
    rw [hd, abs_neg, abs_of_pos (by norm_num)]
    norm_num

/-- C2 (amended): for every record the codec accepts whose
numeric-string fields are in the canonical spellings `unpack_config`
re-creates (`str`, `hex`, `"0b" + "{:08b}"`), whose numeric fields fit
their encodings, whose GPIO pins are 4-bit and whose float bit pattern
is 32-bit, `unpack_config(pack_config(R))` succeeds and equals R
field-for-field — except that the decoded hardware section additionally
carries `num_of_adcs`, and the fixed-point fields `shunt_resistance`
and `adc_offset` come back truncated toward zero:
`0 ≤ original - decoded < 0.001` (not `< 0.0005` as originally
claimed). -/
theorem C2_roundtrip (cfg : Config) (h : WFconfig cfg) :
    ∃ bytes, packConfig cfg = some bytes ∧
      ∃ cfg', unpackConfig bytes = some cfg' ∧
        cfg'.module_type = cfg.module_type ∧
        cfg'.mezzanine_type = cfg.mezzanine_type ∧
        cfg'.network = cfg.network ∧
        cfg'.mqtt = cfg.mqtt ∧
        cfg'.pin_config = cfg.pin_config ∧
        cfg'.status_update_interval_s = cfg.status_update_interval_s ∧
        cfg'.hardware = { cfg.hardware with
          num_of_adcs := some cfg.hardware.adc_i2c_addrs.length } ∧
        cfg'.channels = cfg.channels.map rtChannel ∧
        (∀ ch ∈ cfg.channels,
          (rtChannel ch).name = ch.name ∧
          (rtChannel ch).channel_type = ch.channel_type ∧
          (rtChannel ch).interface_type = ch.interface_type ∧
          (rtChannel ch).channel_number = ch.channel_number ∧
          (rtChannel ch).actions = ch.actions ∧
          (rtChannel ch).measurement_range = ch.measurement_range ∧
          (rtChannel ch).adc_hardware_gain = ch.adc_hardware_gain ∧
          (∀ q, ch.shunt_resistance = some q →
            (rtChannel ch).shunt_resistance
              = some (fixDecode (fixEncode q)) ∧
            0 ≤ q - fixDecode (fixEncode q) ∧
            q - fixDecode (fixEncode q) < 1 / 1000) ∧
          (∀ q, ch.adc_offset = some q →
            (rtChannel ch).adc_offset = some (fixDecode (fixEncode q)) ∧
            0 ≤ q - fixDecode (fixEncode q) ∧
            q - fixDecode (fixEncode q) < 1 / 1000)) := by
  obtain ⟨bytes, hp, hu⟩ := config_rt cfg h
  refine ⟨bytes, hp, rtConfig cfg, hu, rfl, rfl, rfl, rfl, rfl, rfl,
    rfl, rfl, ?_⟩
  intro ch hch
  have hwf := h.2.2.2.1 ch hch
  refine ⟨rfl, rfl, rfl, rfl, rfl, rfl, rfl, ?_, ?_⟩
  · intro q hq
    have hfix : WFfix q := by
      have h8 := hwf.2.2.2.2.2.2.2.1
      rw [hq] at h8
      simpa using h8
    exact ⟨by simp [rtChannel, hq], (fix_roundtrip_error q hfix).1,
      (fix_roundtrip_error q hfix).2⟩
  · intro q hq
    have hfix : WFfix q := by
      have h9 := hwf.2.2.2.2.2.2.2.2
      rw [hq] at h9
      simpa using h9
    exact ⟨by simp [rtChannel, hq], (fix_roundtrip_error q hfix).1,
      (fix_roundtrip_error q hfix).2⟩

/-- Witness for C2 at the concrete record `cxConfig`. -/
theorem C2_roundtrip_witness :
    ∃ bytes, packConfig cxConfig = some bytes ∧
      ∃ cfg', unpackConfig bytes = some cfg' ∧
        cfg'.module_type = cxConfig.module_type ∧
        cfg'.mezzanine_type = cxConfig.mezzanine_type ∧
        cfg'.network = cxConfig.network ∧
        cfg'.mqtt = cxConfig.mqtt ∧
        cfg'.pin_config = cxConfig.pin_config ∧
        cfg'.status_update_interval_s
          = cxConfig.status_update_interval_s ∧
        cfg'.hardware = { cxConfig.hardware with
          num_of_adcs := some cxConfig.hardware.adc_i2c_addrs.length } ∧
        cfg'.channels = cxConfig.channels.map rtChannel ∧
        (∀ ch ∈ cxConfig.channels,
          (rtChannel ch).name = ch.name ∧
          (rtChannel ch).channel_type = ch.channel_type ∧
          (rtChannel ch).interface_type = ch.interface_type ∧
          (rtChannel ch).channel_number = ch.channel_number ∧
          (rtChannel ch).actions = ch.actions ∧
          (rtChannel ch).measurement_range = ch.measurement_range ∧
          (rtChannel ch).adc_hardware_gain = ch.adc_hardware_gain ∧
          (∀ q, ch.shunt_resistance = some q →
            (rtChannel ch).shunt_resistance
              = some (fixDecode (fixEncode q)) ∧
            0 ≤ q - fixDecode (fixEncode q) ∧
            q - fixDecode (fixEncode q) < 1 / 1000) ∧
          (∀ q, ch.adc_offset = some q →
            (rtChannel ch).adc_offset = some (fixDecode (fixEncode q)) ∧
            0 ≤ q - fixDecode (fixEncode q) ∧
            q - fixDecode (fixEncode q) < 1 / 1000)) :=
  C2_roundtrip cxConfig wf_cxConfig

/-! ## Lemmas relating the faithful and the bounds-checking parser -/

theorem us_mono (bs : List Nat) (p : List Nat × List Nat)
    (h : unpack_string_strict bs = some p) : unpack_string bs = some p := by
  match bs with
  | [] => simp [unpack_string_strict] at h
  | n :: rest =>
    simp only [unpack_string_strict] at h
    by_cases hle : n ≤ rest.length
    · rw [if_pos hle] at h
      simpa [unpack_string] using h
    · rw [if_neg hle] at h
      cases h

theorem us_cases (bs : List Nat) (s r : List Nat)
    (h : unpack_string bs = some (s, r)) :
    unpack_string_strict bs = some (s, r) ∨ r = [] := by
  match bs with
  | [] => simp [unpack_string] at h
  | n :: rest =>
    simp only [unpack_string, Option.some.injEq, Prod.mk.injEq] at h
    obtain ⟨hs, hr⟩ := h
    by_cases hle : n ≤ rest.length
    · left
      simp [unpack_string_strict, if_pos hle, hs, hr]
    · right
      rw [← hr, List.drop_eq_nil_iff]
      omega

theorem mqttF_nil : parseMqttSec unpack_string [] = none := rfl

theorem hwF_nil : parseHardwareSec unpack_string [] = none := rfl


theorem parseChannel_head (str : StrParser) (bs : List Nat) :
    parseChannel str bs
      = (str bs).bind (fun p => channelTail p.1 p.2) := rfl

theorem channelTail_nil (name : List Nat) : channelTail name [] = none := rfl

theorem parseHardware_head (str : StrParser) (bs : List Nat) :
    parseHardwareSec str bs
      = (str bs).bind (fun p => hardwareTail p.1 p.2) := rfl

theorem hardwareTail_nil (mode : List Nat) :
    hardwareTail mode [] = none := rfl

theorem parseChannels_succ (str : StrParser) (n : Nat) (bs : List Nat) :
    parseChannels str (n + 1) bs
      = (parseChannel str bs).bind (fun p =>
          (parseChannels str n p.2).bind (fun q =>
            some (p.1 :: q.1, q.2))) := rfl

theorem parseNetworkSec_eq (str : StrParser) (bs : List Nat) :
    parseNetworkSec str bs
      = (str bs).bind (fun p => (str p.2).bind (fun p2 =>
          some ({ wifi_ssid := p.1, wifi_password := p2.1 }, p2.2))) := rfl

theorem parseMqttSec_eq (str : StrParser) (bs : List Nat) :
    parseMqttSec str bs
      = (str bs).bind (fun p => (readU16 p.2).bind (fun p2 =>
          (str p2.2).bind (fun p3 => (str p3.2).bind (fun p4 =>
            some ({ broker := p.1, port := p2.1, client_id := p3.1,
                    base_topic := p4.1 }, p4.2))))) := rfl

theorem unpackConfigAux_eq (str : StrParser) (buf : List Nat) :
    unpackConfigAux str buf
      = (str buf).bind (fun p1 => (str p1.2).bind (fun p2 =>
          (readByte p2.2).bind (fun p3 =>
          (parseChannels str p3.1 p3.2).bind (fun p4 =>
          (parseNetworkSec str p4.2).bind (fun p5 =>
          (parseMqttSec str p5.2).bind (fun p6 =>
          (parseHardwareSec str p6.2).bind (fun p7 =>
          (read2 p7.2).bind (fun p8 =>
            some { module_type := p1.1, mezzanine_type := p2.1,
                   channels := p4.1, network := p5.1, mqtt := p6.1,
                   hardware := p7.1, pin_config := pyBin8 p8.1.1,
                   status_update_interval_s := p8.1.2 })))))))) := rfl

theorem parseChannel_iff (bs : List Nat) (r : Channel × List Nat) :
    parseChannel unpack_string bs = some r ↔
      parseChannel unpack_string_strict bs = some r := by
  rw [parseChannel_head, parseChannel_head]
  constructor <;> intro h
  · rcases hb : unpack_string bs with _ | ⟨name, bs1⟩
    · rw [hb] at h
      simp at h
    · rw [hb] at h
      simp only [Option.bind] at h
      rcases us_cases bs name bs1 hb with hs | hnil
      · rw [hs]
        simpa using h
      · subst hnil
        rw [channelTail_nil] at h
        cases h
  · rcases hb : unpack_string_strict bs with _ | ⟨name, bs1⟩
    · rw [hb] at h
      simp at h
    · rw [hb] at h
      rw [us_mono bs (name, bs1) hb]
      simpa using h

theorem parseChannels_iff (n : Nat) :
    ∀ (bs : List Nat) (r : List Channel × List Nat),
      parseChannels unpack_string n bs = some r ↔
        parseChannels unpack_string_strict n bs = some r := by
  induction n with
  | zero => intro bs r; rfl
  | succ m ih =>
    intro bs r
    rw [parseChannels_succ, parseChannels_succ]
    constructor <;> intro h
    · rcases hc : parseChannel unpack_string bs with _ | ⟨c, bs1⟩
      · rw [hc] at h; simp at h
      · rw [hc] at h
        simp only [optionBindF_some] at h
        rw [(parseChannel_iff bs (c, bs1)).mp hc]
        simp only [optionBindF_some]
        rcases hcs : parseChannels unpack_string m bs1 with _ | ⟨cs, bs2⟩
        · rw [hcs] at h; simp at h
        · rw [hcs] at h
          rw [(ih bs1 (cs, bs2)).mp hcs]
          exact h
    · rcases hc : parseChannel unpack_string_strict bs with _ | ⟨c, bs1⟩
      · rw [hc] at h; simp at h
      · rw [hc] at h
        simp only [optionBindF_some] at h
        rw [(parseChannel_iff bs (c, bs1)).mpr hc]
        simp only [optionBindF_some]
        rcases hcs : parseChannels unpack_string_strict m bs1 with _ | ⟨cs, bs2⟩
        · rw [hcs] at h; simp at h
        · rw [hcs] at h
          rw [(ih bs1 (cs, bs2)).mpr hcs]
          exact h

theorem parseHardwareSec_iff (bs : List Nat) (r : Hardware × List Nat) :
    parseHardwareSec unpack_string bs = some r ↔
      parseHardwareSec unpack_string_strict bs = some r := by
  rw [parseHardware_head, parseHardware_head]
  constructor <;> intro h
  · rcases hb : unpack_string bs with _ | ⟨mode, bs1⟩
    · rw [hb] at h
      simp at h
    · rw [hb] at h
      simp only [Option.bind] at h
      rcases us_cases bs mode bs1 hb with hs | hnil
      · rw [hs]
        simpa using h
      · subst hnil
        rw [hardwareTail_nil] at h
        cases h
  · rcases hb : unpack_string_strict bs with _ | ⟨mode, bs1⟩
    · rw [hb] at h
      simp at h
    · rw [hb] at h
      rw [us_mono bs (mode, bs1) hb]
      simpa using h

theorem net_fwd (bs : List Nat) (v : Network) (rest : List Nat)
    (h : parseNetworkSec unpack_string bs = some (v, rest)) :
    parseNetworkSec unpack_string_strict bs = some (v, rest) ∨ rest = [] := by
  rw [parseNetworkSec_eq] at h
  rw [parseNetworkSec_eq]
  rcases h1 : unpack_string bs with _ | ⟨ssid, bs1⟩
  · rw [h1] at h; simp at h
  rw [h1] at h
  simp only [optionBindF_some] at h
  rcases us_cases bs ssid bs1 h1 with hs1 | hnil1
  · rcases h2 : unpack_string bs1 with _ | ⟨pwd, bs2⟩
    · rw [h2] at h; simp at h
    rw [h2] at h
    simp only [optionBindF_some] at h
    rcases us_cases bs1 pwd bs2 h2 with hs2 | hnil2
    · left
      rw [hs1]
      simp only [optionBindF_some]
      rw [hs2]
      simpa using h
    · right
      simp only [Option.some.injEq, Prod.mk.injEq] at h
      rw [← h.2]
      exact hnil2
  · subst hnil1
    rw [show unpack_string [] = none from rfl] at h
    simp at h

theorem net_mono (bs : List Nat) (p : Network × List Nat)
    (h : parseNetworkSec unpack_string_strict bs = some p) :
    parseNetworkSec unpack_string bs = some p := by
  rw [parseNetworkSec_eq] at h
  rw [parseNetworkSec_eq]
  rcases h1 : unpack_string_strict bs with _ | ⟨ssid, bs1⟩
  · rw [h1] at h; simp at h
  rw [h1] at h
  rw [us_mono bs (ssid, bs1) h1]
  simp only [optionBindF_some] at h ⊢
  rcases h2 : unpack_string_strict bs1 with _ | ⟨pwd, bs2⟩
  · rw [h2] at h; simp at h
  rw [h2] at h
  rw [us_mono bs1 (pwd, bs2) h2]
  exact h

theorem mqtt_fwd (bs : List Nat) (v : Mqtt) (rest : List Nat)
    (h : parseMqttSec unpack_string bs = some (v, rest)) :
    parseMqttSec unpack_string_strict bs = some (v, rest) ∨ rest = [] := by
  rw [parseMqttSec_eq] at h
  rw [parseMqttSec_eq]
  rcases h1 : unpack_string bs with _ | ⟨broker, bs1⟩
  · rw [h1] at h; simp at h
  rw [h1] at h
  simp only [optionBindF_some] at h
  rcases us_cases bs broker bs1 h1 with hs1 | hnil1
  swap
  · subst hnil1
    rw [show readU16 [] = none from rfl] at h
    simp at h
  rcases h2 : readU16 bs1 with _ | ⟨port, bs2⟩
  · rw [h2] at h; simp at h
  rw [h2] at h
  simp only [optionBindF_some] at h
  rcases h3 : unpack_string bs2 with _ | ⟨cid, bs3⟩
  · rw [h3] at h; simp at h
  rw [h3] at h
  simp only [optionBindF_some] at h
  rcases us_cases bs2 cid bs3 h3 with hs3 | hnil3
  swap
  · subst hnil3
    rw [show unpack_string [] = none from rfl] at h
    simp at h
  rcases h4 : unpack_string bs3 with _ | ⟨bt, bs4⟩
  · rw [h4] at h; simp at h
  rw [h4] at h
  simp only [optionBindF_some] at h
  rcases us_cases bs3 bt bs4 h4 with hs4 | hnil4
  · left
    rw [hs1]
    simp only [optionBindF_some]
    rw [h2]
    simp only [optionBindF_some]
    rw [hs3]
    simp only [optionBindF_some]
    rw [hs4]
    simpa using h
  · right
    simp only [Option.some.injEq, Prod.mk.injEq] at h
    rw [← h.2]
    exact hnil4

theorem mqtt_mono (bs : List Nat) (p : Mqtt × List Nat)
    (h : parseMqttSec unpack_string_strict bs = some p) :
    parseMqttSec unpack_string bs = some p := by
  rw [parseMqttSec_eq] at h
  rw [parseMqttSec_eq]
  rcases h1 : unpack_string_strict bs with _ | ⟨broker, bs1⟩
  · rw [h1] at h; simp at h
  rw [h1] at h
  rw [us_mono bs (broker, bs1) h1]
  simp only [optionBindF_some] at h ⊢
  rcases h2 : readU16 bs1 with _ | ⟨port, bs2⟩
  · rw [h2] at h; simp at h
  rw [h2] at h
  simp only [optionBindF_some] at h ⊢
  rcases h3 : unpack_string_strict bs2 with _ | ⟨cid, bs3⟩
  · rw [h3] at h; simp at h
  rw [h3] at h
  rw [us_mono bs2 (cid, bs3) h3]
  simp only [optionBindF_some] at h ⊢
  rcases h4 : unpack_string_strict bs3 with _ | ⟨bt, bs4⟩
  · rw [h4] at h; simp at h
  rw [h4] at h
  rw [us_mono bs3 (bt, bs4) h4]
  exact h

/-- C3: truncated streams are rejected.  `unpackConfigStrict` only
accepts a buffer when every field is present at its declared length,
and it coincides with the real `unpack_config` on success: although
`unpack_string` silently clamps a short slice (Python slicing), the
clamped parse leaves an empty remainder and every later field read
fails, so `unpack_config` never returns a record with a silently-short
field and fails (the spec's `DecodingError` — concretely `IndexError`
or `struct.error`) on every buffer shorter than the fields being read;
e.g. the first 10 bytes of a valid stream are rejected. -/
theorem C3_truncated_always_fails (buf : List Nat) (cfg : Config) :
    (unpackConfig buf = some cfg ↔ unpackConfigStrict buf = some cfg) ∧
    unpackConfig (witBytes.take 10) = none := by
  refine ⟨?_, rfl⟩
  unfold unpackConfig unpackConfigStrict
  rw [unpackConfigAux_eq, unpackConfigAux_eq]
  constructor <;> intro h
  · rcases h1 : unpack_string buf with _ | ⟨mt, bs1⟩
    · rw [h1] at h; simp at h
    rw [h1] at h
    simp only [optionBindF_some] at h
    rcases us_cases buf mt bs1 h1 with hs1 | hnil1
    swap
    · subst hnil1
      rw [show unpack_string [] = none from rfl] at h
      simp at h
    rcases h2 : unpack_string bs1 with _ | ⟨mz, bs2⟩
    · rw [h2] at h; simp at h
    rw [h2] at h
    simp only [optionBindF_some] at h
    rcases us_cases bs1 mz bs2 h2 with hs2 | hnil2
    swap
    · subst hnil2
      rw [show readByte [] = none from rfl] at h
      simp at h
    rcases h3 : readByte bs2 with _ | ⟨nch, bs3⟩
    · rw [h3] at h; simp at h
    rw [h3] at h
    simp only [optionBindF_some] at h
    rcases h4 : parseChannels unpack_string nch bs3 with _ | ⟨chs, bs4⟩
    · rw [h4] at h; simp at h
    rw [h4] at h
    simp only [optionBindF_some] at h
    rcases h5 : parseNetworkSec unpack_string bs4 with _ | ⟨net, bs5⟩
    · rw [h5] at h; simp at h
    rw [h5] at h
    simp only [optionBindF_some] at h
    rcases net_fwd bs4 net bs5 h5 with hs5 | hnil5
    swap
    · subst hnil5
      rw [mqttF_nil] at h
      simp at h
    rcases h6 : parseMqttSec unpack_string bs5 with _ | ⟨mq, bs6⟩
    · rw [h6] at h; simp at h
    rw [h6] at h
    simp only [optionBindF_some] at h
    rcases mqtt_fwd bs5 mq bs6 h6 with hs6 | hnil6
    swap
    · subst hnil6
      rw [hwF_nil] at h
      simp at h
    rcases h7 : parseHardwareSec unpack_string bs6 with _ | ⟨hw, bs7⟩
    · rw [h7] at h; simp at h
    rw [h7] at h
    simp only [optionBindF_some] at h
    rw [hs1]
    simp only [optionBindF_some]
    rw [hs2]
    simp only [optionBindF_some]
    rw [h3]
    simp only [optionBindF_some]
    rw [(parseChannels_iff nch bs3 (chs, bs4)).mp h4]
    simp only [optionBindF_some]
    rw [hs5]
    simp only [optionBindF_some]
    rw [hs6]
    simp only [optionBindF_some]
    rw [(parseHardwareSec_iff bs6 (hw, bs7)).mp h7]
    simp only [optionBindF_some]
    exact h
  · rcases h1 : unpack_string_strict buf with _ | ⟨mt, bs1⟩
    · rw [h1] at h; simp at h
    rw [h1] at h
    rw [us_mono buf (mt, bs1) h1]
    simp only [optionBindF_some] at h ⊢
    rcases h2 : unpack_string_strict bs1 with _ | ⟨mz, bs2⟩
    · rw [h2] at h; simp at h
    rw [h2] at h
    rw [us_mono bs1 (mz, bs2) h2]
    simp only [optionBindF_some] at h ⊢
    rcases h3 : readByte bs2 with _ | ⟨nch, bs3⟩
    · rw [h3] at h; simp at h
    rw [h3] at h
    simp only [optionBindF_some] at h ⊢
    rcases h4 : parseChannels unpack_string_strict nch bs3 with _ | ⟨chs, bs4⟩
    · rw [h4] at h; simp at h
    rw [h4] at h
    rw [(parseChannels_iff nch bs3 (chs, bs4)).mpr h4]
    simp only [optionBindF_some] at h ⊢
    rcases h5 : parseNetworkSec unpack_string_strict bs4 with _ | ⟨net, bs5⟩
    · rw [h5] at h; simp at h
    rw [h5] at h
    rw [net_mono bs4 (net, bs5) h5]
    simp only [optionBindF_some] at h ⊢
    rcases h6 : parseMqttSec unpack_string_strict bs5 with _ | ⟨mq, bs6⟩
    · rw [h6] at h; simp at h
    rw [h6] at h
    rw [mqtt_mono bs5 (mq, bs6) h6]
    simp only [optionBindF_some] at h ⊢
    rcases h7 : parseHardwareSec unpack_string_strict bs6 with _ | ⟨hw, bs7⟩
    · rw [h7] at h; simp at h
    rw [h7] at h
    rw [(parseHardwareSec_iff bs6 (hw, bs7)).mpr h7]
    simp only [optionBindF_some] at h ⊢
    exact h

end IoTflow
